import Mathlib

/-!
Ownership and aliasing in the igraph C++ container wrappers.

A verification development for the wrapper classes `igVec`, `igMat` and the
typed list wrapper (`src/include/vec_pmt.hpp`, `src/include/mat_pmt.hpp`,
`src/include/typed_list_pmt.hpp`) and for the earlier `igVec` of
`src/vec_pmt.hpp`.

The C++ objects live in an explicit heap:

* handle objects (the embedded `vec` / `mat` / `list` field of a wrapper, or a
  handle variable owned by somebody else) are addressed by a natural number;
* the storage managed by the runtime (element buffers, list slots) is a list of
  blocks, a pointer into it is a block identifier with a cell offset;
* every runtime primitive appends a record to `Heap.trace`, so that "the
  destructor calls `destroy`" is a statement about the trace.

A wrapper method that dereferences a pointer returns `none` when the C++ code
has no defined behaviour at that point (null pointer, freed block, cell outside
of the block, indeterminate value read). Allocation itself never fails in this
model, so a statement about a completed call covers the executions in which the
runtime found the memory. Sizes and indices (`igraph_integer_t`) are integers
without wrap-around: they are differences of pointers into one block.
-/

namespace IgraphCpp

/-! ## Pointers and handles -/

/-- Pointer into a storage block of the runtime: block identifier and cell offset. -/
structure EPtr where
  blk : Nat
  off : Nat
deriving DecidableEq, Repr

/-- Pointer arithmetic `p + i` inside one block; `none` before the start of the block. -/
def EPtr.add (p : EPtr) (i : Int) : Option EPtr :=
  if 0 ≤ (p.off : Int) + i then some ⟨p.blk, ((p.off : Int) + i).toNat⟩ else none

/-- Pointer difference `q - p`; only defined inside one block. -/
def EPtr.diff (q p : EPtr) : Option Int :=
  if q.blk = p.blk then some ((q.off : Int) - (p.off : Int)) else none

/-- Handle of a flat vector, the record `igraph_vector_t` of the runtime. -/
structure igraph_vector_t where
  stor_begin : EPtr
  stor_end : EPtr
  end_ : EPtr
deriving DecidableEq, Repr

/-- Handle of a matrix, the record `igraph_matrix_t`: a flat vector with dimensions. -/
structure igraph_matrix_t where
  data : igraph_vector_t
  nrow : Int
  ncol : Int
deriving DecidableEq, Repr

/-- Handle of a list of vectors, `igraph_vector_list_t`; its pointers go into slot blocks. -/
structure igraph_vector_list_t where
  stor_begin : EPtr
  stor_end : EPtr
  end_ : EPtr
deriving DecidableEq, Repr

/-- Pointer to a handle (`igraph_type *`). -/
inductive HPtr where
  /-- The null pointer. -/
  | null
  /-- Address of a handle object: an embedded field of a wrapper or an external handle. -/
  | obj (a : Nat)
  /-- Address of a slot of a list storage block. -/
  | slot (p : EPtr)
deriving DecidableEq, Repr

/-- Record of one call of a runtime primitive. -/
inductive RtCall where
  | vector_init (p : HPtr) (n : Int)
  | vector_init_copy (dst src : HPtr)
  | vector_update (dst src : HPtr)
  | vector_destroy (p : HPtr)
  | matrix_init (p : HPtr) (n m : Int)
  | matrix_init_copy (dst src : HPtr)
  | matrix_update (dst src : HPtr)
  | matrix_destroy (p : HPtr)
  | list_init (p : HPtr) (n : Int)
  | list_destroy (p : HPtr)
  | list_set (p : HPtr) (pos : Int) (e : HPtr)
  | list_push_back (p : HPtr) (e : HPtr)
  | list_pop_back (p : HPtr)
  | list_tail_ptr (p : HPtr)
deriving DecidableEq, Repr

/-- The memory the wrappers work on. -/
structure Heap where
  /-- Vector handle objects by address (`none`: nothing initialised there). -/
  vecs : Nat → Option igraph_vector_t
  /-- Matrix handle objects by address. -/
  mats : Nat → Option igraph_matrix_t
  /-- List handle objects by address. -/
  lists : Nat → Option igraph_vector_list_t
  /-- Element blocks: `none` is a freed block, a cell `none` is indeterminate. -/
  elems : List (Option (List (Option Int)))
  /-- Slot blocks of lists: `none` is a freed block, a cell `none` is indeterminate. -/
  slots : List (Option (List (Option igraph_vector_t)))
  /-- Calls of runtime primitives so far, oldest first. -/
  trace : List RtCall

/-- The heap with no object and no block. -/
def Heap.empty : Heap :=
  { vecs := fun _ => none, mats := fun _ => none, lists := fun _ => none,
    elems := [], slots := [], trace := [] }

/-- Cells of a live block. -/
def blockCells {α : Type} (mem : List (Option (List (Option α)))) (b : Nat) :
    Option (List (Option α)) :=
  match mem[b]? with
  | some (some cells) => some cells
  | _ => none

/-- Read of one cell: defined for a determinate cell of a live block. -/
def loadCell {α : Type} (mem : List (Option (List (Option α)))) (p : EPtr) : Option α :=
  match blockCells mem p.blk with
  | some cells =>
    match cells[p.off]? with
    | some (some v) => some v
    | _ => none
  | none => none

/-- Write of one cell: defined for a cell of a live block. -/
def storeCell {α : Type} (mem : List (Option (List (Option α)))) (p : EPtr) (v : α) :
    Option (List (Option (List (Option α)))) :=
  match blockCells mem p.blk with
  | some cells =>
    if p.off < cells.length then some (mem.set p.blk (some (cells.set p.off (some v))))
    else none
  | none => none

/-- Release of a block through its base pointer: defined for a live block. -/
def freeBlock {α : Type} (mem : List (Option (List (Option α)))) (p : EPtr) :
    Option (List (Option (List (Option α)))) :=
  match blockCells mem p.blk with
  | some _ => if p.off = 0 then some (mem.set p.blk none) else none
  | none => none

/-- Value of `*p` for a vector handle pointer. -/
def Heap.derefVec (st : Heap) : HPtr → Option igraph_vector_t
  | .null => none
  | .obj a => st.vecs a
  | .slot p => loadCell st.slots p

/-- Assignment `*p = h` for a vector handle pointer. -/
def Heap.storeVec (st : Heap) (p : HPtr) (h : igraph_vector_t) : Option Heap :=
  match p with
  | .null => none
  | .obj a => some { st with vecs := Function.update st.vecs a (some h) }
  | .slot q =>
    match storeCell st.slots q h with
    | some sl => some { st with slots := sl }
    | none => none

/-- Value of `*p` for a matrix handle pointer (slots of matrix lists are not part of the model). -/
def Heap.derefMat (st : Heap) : HPtr → Option igraph_matrix_t
  | .obj a => st.mats a
  | _ => none

/-- Value of `*p` for a list handle pointer. -/
def Heap.derefList (st : Heap) : HPtr → Option igraph_vector_list_t
  | .obj a => st.lists a
  | _ => none

/-- Record a runtime call. -/
def Heap.log (st : Heap) (c : RtCall) : Heap :=
  { st with trace := st.trace ++ [c] }

/-! ## Runtime primitives -/

/-- Modelled from the spec: the runtime primitive `destroy` for vectors (section 6,
"releases the buffer through the runtime"); it frees the block `stor_begin` points to and
is undefined on a handle whose block is not live. -/
def igraph_vector_destroy (st : Heap) (p : HPtr) : Option Heap :=
  match st.derefVec p with
  | none => none
  | some h =>
    match freeBlock st.elems h.stor_begin with
    | none => none
    | some el => some ({ st with elems := el }.log (.vector_destroy p))

/-- Modelled from the spec: the runtime primitive `destroy` for matrices; it frees the block
of the flat data vector. -/
def igraph_matrix_destroy (st : Heap) (p : HPtr) : Option Heap :=
  match st.derefMat p with
  | none => none
  | some h =>
    match freeBlock st.elems h.data.stor_begin with
    | none => none
    | some el => some ({ st with elems := el }.log (.matrix_destroy p))

/-- Release of the buffers of the items in `cells`, first to last. -/
def destroyItems (el : List (Option (List (Option Int)))) :
    List (Option igraph_vector_t) → Option (List (Option (List (Option Int))))
  | [] => some el
  | none :: _ => none
  | some h :: rest =>
    match freeBlock el h.stor_begin with
    | none => none
    | some el1 => destroyItems el1 rest

/-- Size `end - stor_begin` of a list handle. -/
def igraph_vector_list_t.size (h : igraph_vector_list_t) : Option Int :=
  h.end_.diff h.stor_begin

/-- Modelled from the spec: the runtime primitive `destroy` for lists; the list owns every
slot ("every slot's sub-handle is owned by the list as a whole"), so the buffers of the
live slots are released and then the slot block itself. -/
def igraph_vector_list_destroy (st : Heap) (p : HPtr) : Option Heap :=
  match st.derefList p with
  | none => none
  | some h =>
    match h.size, blockCells st.slots h.stor_begin.blk with
    | some n, some cells =>
      if 0 ≤ n ∧ h.stor_begin.off + n.toNat ≤ cells.length then
        match destroyItems st.elems ((cells.drop h.stor_begin.off).take n.toNat) with
        | none => none
        | some el =>
          match freeBlock st.slots h.stor_begin with
          | none => none
          | some sl => some ({ st with elems := el, slots := sl }.log (.list_destroy p))
      else none
    | _, _ => none

/-- Assignment `*p = h` for a list handle pointer. -/
def Heap.storeList (st : Heap) (p : HPtr) (h : igraph_vector_list_t) : Option Heap :=
  match p with
  | .obj a => some { st with lists := Function.update st.lists a (some h) }
  | _ => none

/-- Assignment `*p = h` for a matrix handle pointer. -/
def Heap.storeMat (st : Heap) (p : HPtr) (h : igraph_matrix_t) : Option Heap :=
  match p with
  | .obj a => some { st with mats := Function.update st.mats a (some h) }
  | _ => none

/-- Size `end - stor_begin` of a vector handle. -/
def igraph_vector_t.size (h : igraph_vector_t) : Option Int :=
  h.end_.diff h.stor_begin

/-- Modelled from the spec: the runtime primitive `init(handle, n)` ("a freshly allocated,
owning, empty (or zero-filled to size n) buffer"); the new block has at least one cell and
allocation does not fail in this model. -/
def igraph_vector_init (st : Heap) (p : HPtr) (n : Int) : Option Heap :=
  if n < 0 then none
  else
    let b := st.elems.length
    let cap := max n.toNat 1
    let st1 : Heap := { st with elems := st.elems ++ [some (List.replicate cap (some 0))] }
    match st1.storeVec p { stor_begin := ⟨b, 0⟩, stor_end := ⟨b, cap⟩, end_ := ⟨b, n.toNat⟩ } with
    | none => none
    | some st2 => some (st2.log (.vector_init p n))

/-- Modelled from the spec: the runtime primitive `init_copy` ("allocates a new owned buffer
and deep-copies contents"): a new block receives the live cells of the source. -/
def igraph_vector_init_copy (st : Heap) (dst src : HPtr) : Option Heap :=
  match st.derefVec src with
  | none => none
  | some hs =>
    match hs.size, blockCells st.elems hs.stor_begin.blk with
    | some n, some cells =>
      if 0 ≤ n ∧ hs.stor_begin.off + n.toNat ≤ cells.length then
        let b := st.elems.length
        let cap := max n.toNat 1
        let data := (cells.drop hs.stor_begin.off).take n.toNat ++
          List.replicate (cap - n.toNat) (some 0)
        let st1 : Heap := { st with elems := st.elems ++ [some data] }
        match st1.storeVec dst
            { stor_begin := ⟨b, 0⟩, stor_end := ⟨b, cap⟩, end_ := ⟨b, n.toNat⟩ } with
        | none => none
        | some st2 => some (st2.log (.vector_init_copy dst src))
      else none
    | _, _ => none

/-- Modelled from the spec: the runtime primitive `resize` ("may reallocate"): inside the
capacity only `end` moves; otherwise the cells move to a new block and the old block is
freed. -/
def igraph_vector_resize (st : Heap) (p : HPtr) (n : Nat) : Option Heap :=
  match st.derefVec p with
  | none => none
  | some h =>
    match h.stor_end.diff h.stor_begin with
    | none => none
    | some cap =>
      if (n : Int) ≤ cap then
        st.storeVec p { h with end_ := ⟨h.stor_begin.blk, h.stor_begin.off + n⟩ }
      else
        match blockCells st.elems h.stor_begin.blk, freeBlock st.elems h.stor_begin with
        | some cells, some el =>
          let b := el.length
          let st1 : Heap :=
            { st with elems := el ++ [some (cells ++ List.replicate (n - cells.length) none)] }
          st1.storeVec p { stor_begin := ⟨b, 0⟩, stor_end := ⟨b, n⟩, end_ := ⟨b, n⟩ }
        | _, _ => none

/-- Copy of `n` cells from `s` to `d` (the `memcpy` of the runtime). -/
def copyCells (el : List (Option (List (Option Int)))) (d s : EPtr) (n : Nat) :
    Option (List (Option (List (Option Int)))) :=
  match blockCells el s.blk with
  | none => none
  | some sc =>
    if s.off + n ≤ sc.length then
      match blockCells el d.blk with
      | none => none
      | some dc =>
        if d.off + n ≤ dc.length then
          some (el.set d.blk
            (some (dc.take d.off ++ (sc.drop s.off).take n ++ dc.drop (d.off + n))))
        else none
    else none

/-- Modelled from the spec: the runtime primitive `update` behind copy assignment: the
destination is resized to the size of the source and the live cells are copied over. -/
def igraph_vector_update (st : Heap) (dst src : HPtr) : Option Heap :=
  match st.derefVec src with
  | none => none
  | some hs =>
    match hs.size with
    | none => none
    | some n =>
      if n < 0 then none
      else
        match igraph_vector_resize st dst n.toNat with
        | none => none
        | some st1 =>
          match st1.derefVec dst, st1.derefVec src with
          | some hd, some hs1 =>
            match copyCells st1.elems hd.stor_begin hs1.stor_begin n.toNat with
            | none => none
            | some el => some ({ st1 with elems := el }.log (.vector_update dst src))
          | _, _ => none

/-- Modelled from the spec: the runtime primitive `init(handle, n, m)` for matrices: a
zero-filled flat buffer of `n * m` cells with the dimensions recorded. -/
def igraph_matrix_init (st : Heap) (p : HPtr) (n m : Int) : Option Heap :=
  if n < 0 ∨ m < 0 then none
  else
    let b := st.elems.length
    let len := (n * m).toNat
    let cap := max len 1
    let st1 : Heap := { st with elems := st.elems ++ [some (List.replicate cap (some 0))] }
    match st1.storeMat p
        { data := { stor_begin := ⟨b, 0⟩, stor_end := ⟨b, cap⟩, end_ := ⟨b, len⟩ },
          nrow := n, ncol := m } with
    | none => none
    | some st2 => some (st2.log (.matrix_init p n m))

/-- Modelled from the spec: the runtime primitive `init(handle, n)` for lists ("growing
default-constructs new ones"): `n` slots, each an empty vector with a buffer of its own. -/
def igraph_vector_list_init (st : Heap) (p : HPtr) (n : Int) : Option Heap :=
  if n < 0 then none
  else
    let eb := st.elems.length
    let sb := st.slots.length
    let cap := max n.toNat 1
    let items : List (Option igraph_vector_t) := (List.range n.toNat).map fun i =>
      some { stor_begin := ⟨eb + i, 0⟩, stor_end := ⟨eb + i, 1⟩, end_ := ⟨eb + i, 0⟩ }
    let st1 : Heap :=
      { st with
        elems := st.elems ++ List.replicate n.toNat (some [some 0]),
        slots := st.slots ++ [some (items ++ List.replicate (cap - n.toNat) none)] }
    match st1.storeList p { stor_begin := ⟨sb, 0⟩, stor_end := ⟨sb, cap⟩, end_ := ⟨sb, n.toNat⟩ } with
    | none => none
    | some st2 => some (st2.log (.list_init p n))

/-- Modelled from the spec: the runtime primitive `set` ("destroying whatever previously
occupied the slot"): the old item of slot `pos` is destroyed, then `*e` is stored there. -/
def igraph_vector_list_set (st : Heap) (lp : HPtr) (pos : Int) (e : HPtr) : Option Heap :=
  match st.derefList lp with
  | none => none
  | some h =>
    match h.stor_begin.add pos with
    | none => none
    | some q =>
      match loadCell st.slots q with
      | none => none
      | some old =>
        match freeBlock st.elems old.stor_begin with
        | none => none
        | some el =>
          let st1 : Heap := { st with elems := el }
          match st1.derefVec e with
          | none => none
          | some item =>
            match storeCell st1.slots q item with
            | none => none
            | some sl => some ({ st1 with slots := sl }.log (.list_set lp pos e))

/-- Growth of a full list: the slots move to a new block of twice the size (one slot for an
empty list) and the old block is freed. -/
def listGrow (st : Heap) (h : igraph_vector_list_t) : Option (Heap × igraph_vector_list_t) :=
  match h.size, blockCells st.slots h.stor_begin.blk, freeBlock st.slots h.stor_begin with
  | some n, some cells, some sl =>
    if n < 0 then none
    else
      let cap := if n.toNat = 0 then 1 else 2 * n.toNat
      let b := sl.length
      some ({ st with slots := sl ++ [some (cells ++ List.replicate (cap - cells.length) none)] },
        { stor_begin := ⟨b, 0⟩, stor_end := ⟨b, cap⟩, end_ := ⟨b, n.toNat⟩ })
  | _, _, _ => none

/-- Modelled from the spec: the runtime primitive `push_back` of lists: the list grows when
it is full, then `*e` is stored in the slot at `end` and `end` advances. -/
def igraph_vector_list_push_back (st : Heap) (lp : HPtr) (e : HPtr) : Option Heap :=
  match st.derefList lp with
  | none => none
  | some h =>
    match (if h.end_ = h.stor_end then listGrow st h else some (st, h)) with
    | none => none
    | some (st1, h1) =>
      match st1.derefVec e with
      | none => none
      | some item =>
        match storeCell st1.slots h1.end_ item with
        | none => none
        | some sl =>
          match { st1 with slots := sl }.storeList lp
              { h1 with end_ := ⟨h1.end_.blk, h1.end_.off + 1⟩ } with
          | none => none
          | some st2 => some (st2.log (.list_push_back lp e))

/-- Modelled from the spec: the runtime's tail-pointer accessor: the address of the last
live slot, `end - 1`. -/
def igraph_vector_list_tail_ptr (st : Heap) (lp : HPtr) : Option (Heap × EPtr) :=
  match st.derefList lp with
  | none => none
  | some h =>
    match h.size with
    | none => none
    | some n =>
      if n ≤ 0 then none
      else
        match h.end_.add (-1) with
        | none => none
        | some q => some (st.log (.list_tail_ptr lp), q)

/-- Modelled from the spec: the runtime primitive `pop_back` of lists ("removes the last
slot from the list's bookkeeping"): `end` retreats by one and the handle stored there is
returned by value; the slot is not destroyed. -/
def igraph_vector_list_pop_back (st : Heap) (lp : HPtr) : Option (Heap × igraph_vector_t) :=
  match st.derefList lp with
  | none => none
  | some h =>
    match h.size with
    | none => none
    | some n =>
      if n ≤ 0 then none
      else
        match h.end_.add (-1) with
        | none => none
        | some q =>
          match loadCell st.slots q with
          | none => none
          | some item =>
            match st.storeList lp { h with end_ := q } with
            | none => none
            | some st1 => some (st1.log (.list_pop_back lp), item)

/-- The error check `igCheck`: a failed runtime call ends the operation. -/
def igCheck {α : Type} (r : Option α) : Option α := r

/-! ## The wrappers of `src/include/` -/

/-- The class `igVec<BASE>` of `src/include/vec_pmt.hpp`: `vec` is the address of the embedded
handle (its value is `Heap.vecs vec`), `ptr` the handle pointer. -/
structure igVec where
  vec : Nat
  ptr : HPtr
deriving DecidableEq, Repr

/-- The method `is_alias`: `ptr != &vec`. -/
def igVec.is_alias (w : igVec) : Bool := w.ptr != HPtr.obj w.vec

/-- Move constructor `igVec(igVec &&other)` for a new object at address `self`;
returns the heap, the new object and `other` afterwards. The default member initialiser sets
`ptr = &vec`; in the aliasing branch the embedded field stays as the heap has it. -/
def igVec.igVec_move (st : Heap) (self : Nat) (other : igVec) : Heap × igVec × igVec :=
  let this : igVec := { vec := self, ptr := HPtr.obj self }
  if other.is_alias then
    (st, { this with ptr := other.ptr }, { other with ptr := HPtr.null })
  else
    ({ st with vecs := Function.update st.vecs self (st.vecs other.vec) }, this,
      { other with ptr := HPtr.null })

/-- Destructor `~igVec()`. -/
def igVec.destructor (st : Heap) (w : igVec) : Option Heap :=
  if !w.is_alias then igraph_vector_destroy st w.ptr else some st

/-- The class `igMat<BASE>` of `src/include/mat_pmt.hpp`. -/
structure igMat where
  mat : Nat
  ptr : HPtr
deriving DecidableEq, Repr

/-- The method `is_alias`: `ptr != &mat`. -/
def igMat.is_alias (w : igMat) : Bool := w.ptr != HPtr.obj w.mat

/-- Move constructor `igMat(igMat &&other)` for a new object at address `self`. -/
def igMat.igMat_move (st : Heap) (self : Nat) (other : igMat) : Heap × igMat × igMat :=
  let this : igMat := { mat := self, ptr := HPtr.obj self }
  if other.is_alias then
    (st, { this with ptr := other.ptr }, { other with ptr := HPtr.null })
  else
    ({ st with mats := Function.update st.mats self (st.mats other.mat) }, this,
      { other with ptr := HPtr.null })

/-- Destructor `~igMat()`. -/
def igMat.destructor (st : Heap) (w : igMat) : Option Heap :=
  if !w.is_alias then igraph_matrix_destroy st w.ptr else some st

/-- The class `LIST_TYPE` of `src/include/typed_list_pmt.hpp`, instantiated for lists of
vectors (`ELEM_TYPE` is `igVec`). -/
structure igVecList where
  list : Nat
  ptr : HPtr
deriving DecidableEq, Repr

/-- The method `is_alias`: `ptr != &list`. -/
def igVecList.is_alias (w : igVecList) : Bool := w.ptr != HPtr.obj w.list

/-- Move constructor `LIST_TYPE(LIST_TYPE &&other)` for a new object at address `self`. -/
def igVecList.LIST_TYPE_move (st : Heap) (self : Nat) (other : igVecList) :
    Heap × igVecList × igVecList :=
  let this : igVecList := { list := self, ptr := HPtr.obj self }
  if other.is_alias then
    (st, { this with ptr := other.ptr }, { other with ptr := HPtr.null })
  else
    ({ st with lists := Function.update st.lists self (st.lists other.list) }, this,
      { other with ptr := HPtr.null })

/-- Destructor `~LIST_TYPE()`. -/
def igVecList.destructor (st : Heap) (w : igVecList) : Option Heap :=
  if !w.is_alias then igraph_vector_list_destroy st w.ptr else some st

/-! ### Further members of `igVec` -/

/-- Capturing constructor `igVec(igCaptureType v)`: member initialiser `vec(v.obj)`. -/
def igVec.igVec_capture (st : Heap) (self : Nat) (v : igraph_vector_t) : Heap × igVec :=
  ({ st with vecs := Function.update st.vecs self (some v) }, { vec := self, ptr := HPtr.obj self })

/-- Aliasing constructor `igVec(igAliasType v)`: member initialiser `ptr(&v.obj)`. -/
def igVec.igVec_alias (self : Nat) (v : HPtr) : igVec :=
  { vec := self, ptr := v }

/-- Sized constructor `igVec(size_type n)`. -/
def igVec.igVec_sized (st : Heap) (self : Nat) (n : Int) : Option (Heap × igVec) :=
  let this : igVec := { vec := self, ptr := HPtr.obj self }
  match igCheck (igraph_vector_init st this.ptr n) with
  | none => none
  | some st1 => some (st1, this)

/-- Copy constructor `igVec(const igVec &other)`. -/
def igVec.igVec_copy (st : Heap) (self : Nat) (other : igVec) : Option (Heap × igVec) :=
  let this : igVec := { vec := self, ptr := HPtr.obj self }
  match igCheck (igraph_vector_init_copy st this.ptr other.ptr) with
  | none => none
  | some st1 => some (st1, this)

/-- Copy assignment `operator = (const igVec &other)`; `*this` keeps its pointer. -/
def igVec.assign_copy (st : Heap) (this other : igVec) : Option (Heap × igVec) :=
  match igCheck (igraph_vector_update st this.ptr other.ptr) with
  | none => none
  | some st1 => some (st1, this)

/-- Move assignment `operator = (igVec &&other)`; returns the heap, `*this` and `other`. -/
def igVec.assign_move (st : Heap) (this other : igVec) : Option (Heap × igVec × igVec) :=
  match (if !this.is_alias then igraph_vector_destroy st this.ptr else some st) with
  | none => none
  | some st1 =>
    if other.is_alias then
      some (st1, { this with ptr := other.ptr }, { other with ptr := HPtr.null })
    else
      some ({ st1 with vecs := Function.update st1.vecs this.vec (st1.vecs other.vec) },
        { this with ptr := HPtr.obj this.vec }, { other with ptr := HPtr.null })

/-- The method `begin`: `ptr->stor_begin`. -/
def igVec.begin_ (st : Heap) (w : igVec) : Option EPtr :=
  match st.derefVec w.ptr with
  | none => none
  | some h => some h.stor_begin

/-- The method `size`: `ptr->end - ptr->stor_begin`. -/
def igVec.size (st : Heap) (w : igVec) : Option Int :=
  match st.derefVec w.ptr with
  | none => none
  | some h => h.end_.diff h.stor_begin

/-- The method `empty`: `ptr->end == ptr->stor_begin`. -/
def igVec.empty (st : Heap) (w : igVec) : Option Bool :=
  match st.derefVec w.ptr with
  | none => none
  | some h => some (h.end_ == h.stor_begin)

/-- Read through `operator []`: the value of `begin()[i]`. -/
def igVec.index (st : Heap) (w : igVec) (i : Int) : Option Int :=
  match w.begin_ st with
  | none => none
  | some b =>
    match b.add i with
    | none => none
    | some p => loadCell st.elems p

/-- Write through `operator []`: the assignment `w[i] = x`. -/
def igVec.index_assign (st : Heap) (w : igVec) (i : Int) (x : Int) : Option Heap :=
  match w.begin_ st with
  | none => none
  | some b =>
    match b.add i with
    | none => none
    | some p =>
      match storeCell st.elems p x with
      | none => none
      | some el => some { st with elems := el }

/-- The loop of `operator ==` from index `i` on, with `k` iterations allowed. -/
def igVec.eq_loop (st : Heap) (lhs rhs : igVec) (n : Int) : Nat → Int → Option Bool
  | 0, i => if i < n then none else some true
  | k + 1, i =>
    if i < n then
      match lhs.index st i, rhs.index st i with
      | some a, some b => if a != b then some false else igVec.eq_loop st lhs rhs n k (i + 1)
      | _, _ => none
    else some true

/-- The friend `operator ==` of `igVec`. -/
def igVec.op_eq (st : Heap) (lhs rhs : igVec) : Option Bool :=
  if lhs.ptr = rhs.ptr then some true
  else
    match lhs.size st with
    | none => none
    | some n =>
      match rhs.size st with
      | none => none
      | some m => if m != n then some false else igVec.eq_loop st lhs rhs n n.toNat 0

/-- The friend `operator !=` of `igVec`. -/
def igVec.op_ne (st : Heap) (lhs rhs : igVec) : Option Bool :=
  match igVec.op_eq st lhs rhs with
  | none => none
  | some b => some (!b)

/-! ### Further members of `igMat` -/

/-- Sized constructor `igMat(size_type n, size_type m)`. -/
def igMat.igMat_sized (st : Heap) (self : Nat) (n m : Int) : Option (Heap × igMat) :=
  let this : igMat := { mat := self, ptr := HPtr.obj self }
  match igCheck (igraph_matrix_init st this.ptr n m) with
  | none => none
  | some st1 => some (st1, this)

/-- Move assignment `operator = (igMat &&other)`. -/
def igMat.assign_move (st : Heap) (this other : igMat) : Option (Heap × igMat × igMat) :=
  match (if !this.is_alias then igraph_matrix_destroy st this.ptr else some st) with
  | none => none
  | some st1 =>
    if other.is_alias then
      some (st1, { this with ptr := other.ptr }, { other with ptr := HPtr.null })
    else
      some ({ st1 with mats := Function.update st1.mats this.mat (st1.mats other.mat) },
        { this with ptr := HPtr.obj this.mat }, { other with ptr := HPtr.null })

/-- The method `begin`: `ptr->data.stor_begin`. -/
def igMat.begin_ (st : Heap) (w : igMat) : Option EPtr :=
  match st.derefMat w.ptr with
  | none => none
  | some h => some h.data.stor_begin

/-- The method `size`: `ptr->data.end - ptr->data.stor_begin`. -/
def igMat.size (st : Heap) (w : igMat) : Option Int :=
  match st.derefMat w.ptr with
  | none => none
  | some h => h.data.end_.diff h.data.stor_begin

/-- The method `empty`: `ptr->data.end == ptr->data.stor_begin`. -/
def igMat.empty (st : Heap) (w : igMat) : Option Bool :=
  match st.derefMat w.ptr with
  | none => none
  | some h => some (h.data.end_ == h.data.stor_begin)

/-- The method `nrow`. -/
def igMat.nrow (st : Heap) (w : igMat) : Option Int :=
  match st.derefMat w.ptr with
  | none => none
  | some h => some h.nrow

/-- The method `ncol`. -/
def igMat.ncol (st : Heap) (w : igMat) : Option Int :=
  match st.derefMat w.ptr with
  | none => none
  | some h => some h.ncol

/-- Read through `operator []`: the value of `begin()[i]` at the flat offset `i`. -/
def igMat.index (st : Heap) (w : igMat) (i : Int) : Option Int :=
  match w.begin_ st with
  | none => none
  | some b =>
    match b.add i with
    | none => none
    | some p => loadCell st.elems p

/-- Write through `operator []`: the assignment `w[i] = x`. -/
def igMat.index_assign (st : Heap) (w : igMat) (i : Int) (x : Int) : Option Heap :=
  match w.begin_ st with
  | none => none
  | some b =>
    match b.add i with
    | none => none
    | some p =>
      match storeCell st.elems p x with
      | none => none
      | some el => some { st with elems := el }

/-- The `!=` of an integer element type `BASE` on stored values. -/
def int_ne (a b : Int) : Bool := a != b

/-- A 64-bit pattern is a NaN of `igraph_real_t` (an IEEE 754 double): the eleven exponent
bits are all set and the mantissa is not zero. -/
def real_is_nan (bits : Int) : Bool :=
  (bits.toNat / 2 ^ 52) % 2 ^ 11 == 2 ^ 11 - 1 && bits.toNat % 2 ^ 52 != 0

/-- A 64-bit pattern is a zero of `igraph_real_t`, of either sign. -/
def real_is_zero (bits : Int) : Bool :=
  bits.toNat % 2 ^ 63 == 0

/-- The built-in `!=` of the element type `igraph_real_t` on stored 64-bit patterns: a NaN is
unequal to everything, itself included; two other values are unequal when their patterns
differ and they are not the two zeros. -/
def real_ne (a b : Int) : Bool :=
  real_is_nan a || real_is_nan b || (a != b && !(real_is_zero a && real_is_zero b))

/-- The loop of `operator ==` from index `i` on, with `k` iterations allowed. The template
parameter `BASE` enters through `ne`, its `!=` on the stored values (`int_ne` for an integer
`BASE`, `real_ne` for `igraph_real_t`). -/
def igMat.eq_loop (ne : Int → Int → Bool) (st : Heap) (lhs rhs : igMat) (n : Int) :
    Nat → Int → Option Bool
  | 0, i => if i < n then none else some true
  | k + 1, i =>
    if i < n then
      match lhs.index st i, rhs.index st i with
      | some a, some b => if ne a b then some false else igMat.eq_loop ne st lhs rhs n k (i + 1)
      | _, _ => none
    else some true

/-- The friend `operator ==` of `igMat<BASE>`, with `ne` the `!=` of `BASE`. -/
def igMat.op_eq (ne : Int → Int → Bool) (st : Heap) (lhs rhs : igMat) : Option Bool :=
  if lhs.ptr = rhs.ptr then some true
  else
    match lhs.size st with
    | none => none
    | some n =>
      match rhs.size st with
      | none => none
      | some m => if m != n then some false else igMat.eq_loop ne st lhs rhs n n.toNat 0

/-- The friend `operator !=` of `igMat<BASE>`. -/
def igMat.op_ne (ne : Int → Int → Bool) (st : Heap) (lhs rhs : igMat) : Option Bool :=
  match igMat.op_eq ne st lhs rhs with
  | none => none
  | some b => some (!b)

/-- The heap in which the matrix handle at every address `a` has the dimensions `dims a`
(`nrow`, `ncol`) and everything else, the flat data included, is as in `st`. -/
def Heap.withDims (st : Heap) (dims : Nat → Int × Int) : Heap :=
  { st with
    mats := fun a =>
      match st.mats a with
      | none => none
      | some h => some { data := h.data, nrow := (dims a).1, ncol := (dims a).2 } }

/-! ### Further members of the list wrapper -/

/-- Sized constructor `LIST_TYPE(size_type n)`. -/
def igVecList.LIST_TYPE_sized (st : Heap) (self : Nat) (n : Int) : Option (Heap × igVecList) :=
  let this : igVecList := { list := self, ptr := HPtr.obj self }
  match igCheck (igraph_vector_list_init st this.ptr n) with
  | none => none
  | some st1 => some (st1, this)

/-- The method `size`: `ptr->end - ptr->stor_begin`. -/
def igVecList.size (st : Heap) (L : igVecList) : Option Int :=
  match st.derefList L.ptr with
  | none => none
  | some h => h.end_.diff h.stor_begin

/-- Address `&ptr->stor_begin[i]` of slot `i`. -/
def igVecList.slot_addr (st : Heap) (L : igVecList) (i : Int) : Option EPtr :=
  match st.derefList L.ptr with
  | none => none
  | some h => h.stor_begin.add i

/-- The method `operator []`: a new wrapper at address `self` aliasing slot `i`,
`value_type(igAlias(ptr->stor_begin[i]))`. -/
def igVecList.index (st : Heap) (L : igVecList) (self : Nat) (i : Int) : Option igVec :=
  match L.slot_addr st i with
  | none => none
  | some q => some (igVec.igVec_alias self (HPtr.slot q))

/-- The method `set(pos, value_type &t)`; returns the heap and `t` afterwards. -/
def igVecList.set_ref (st : Heap) (L : igVecList) (pos : Int) (t : igVec) :
    Option (Heap × igVec) :=
  match igraph_vector_list_set st L.ptr pos t.ptr with
  | none => none
  | some st1 =>
    match L.slot_addr st1 pos with
    | none => none
    | some q => some (st1, { t with ptr := HPtr.slot q })

/-- The method `set(pos, value_type &&t)`; returns the heap and `t` afterwards. -/
def igVecList.set_rvalue (st : Heap) (L : igVecList) (pos : Int) (t : igVec) :
    Option (Heap × igVec) :=
  match igraph_vector_list_set st L.ptr pos t.ptr with
  | none => none
  | some st1 => some (st1, { t with ptr := HPtr.null })

/-- The method `push_back(value_type &t)`; returns the heap and `t` afterwards. -/
def igVecList.push_back_ref (st : Heap) (L : igVecList) (t : igVec) : Option (Heap × igVec) :=
  match igCheck (igraph_vector_list_push_back st L.ptr t.ptr) with
  | none => none
  | some st1 =>
    match igraph_vector_list_tail_ptr st1 L.ptr with
    | none => none
    | some (st2, q) => some (st2, { t with ptr := HPtr.slot q })

/-- The method `push_back(value_type &&t)`; returns the heap and `t` afterwards. -/
def igVecList.push_back_rvalue (st : Heap) (L : igVecList) (t : igVec) :
    Option (Heap × igVec) :=
  match igCheck (igraph_vector_list_push_back st L.ptr t.ptr) with
  | none => none
  | some st1 => some (st1, { t with ptr := HPtr.null })

/-- The method `pop_back`: `value_type(igCapture(pop_back(ptr)))`, the new wrapper sits at
address `self`. -/
def igVecList.pop_back (st : Heap) (L : igVecList) (self : Nat) : Option (Heap × igVec) :=
  match igraph_vector_list_pop_back st L.ptr with
  | none => none
  | some (st1, item) => some (igVec.igVec_capture st1 self item)

/-! ### The iterator of the list wrapper -/

/-- The class `LIST_TYPE::iterator` of `src/include/typed_list_pmt.hpp`: the one field `p`
points into the slots of a list. -/
structure igVecList.iterator where
  p : EPtr
deriving DecidableEq, Repr

/-- The method `LIST_TYPE::begin`: `ptr->stor_begin`. -/
def igVecList.begin_ (st : Heap) (L : igVecList) : Option igVecList.iterator :=
  match st.derefList L.ptr with
  | none => none
  | some h => some { p := h.stor_begin }

/-- The method `LIST_TYPE::end`: `ptr->end`. -/
def igVecList.end_ (st : Heap) (L : igVecList) : Option igVecList.iterator :=
  match st.derefList L.ptr with
  | none => none
  | some h => some { p := h.end_ }

/-- Dereference `operator *`: a new wrapper at address `self` aliasing the slot `p`,
`value_type(igAlias(*p))`. -/
def igVecList.iterator.deref (self : Nat) (it : igVecList.iterator) : igVec :=
  igVec.igVec_alias self (HPtr.slot it.p)

/-- Pre-increment `operator ++ ()`: `++p; return *this;`. Returns the iterator afterwards and
the value of the expression. -/
def igVecList.iterator.pre_inc (it : igVecList.iterator) :
    Option (igVecList.iterator × igVecList.iterator) :=
  match it.p.add 1 with
  | none => none
  | some q =>
    let this : igVecList.iterator := { p := q }
    some (this, this)

/-- Post-increment `operator ++ (int)`: `++p; return *this;`. Returns the iterator afterwards
and the value of the expression, a copy of `*this` taken after `++p`. -/
def igVecList.iterator.post_inc (it : igVecList.iterator) :
    Option (igVecList.iterator × igVecList.iterator) :=
  match it.p.add 1 with
  | none => none
  | some q =>
    let this : igVecList.iterator := { p := q }
    some (this, this)

/-- Pre-decrement `operator -- ()`: `--p; return *this;`. -/
def igVecList.iterator.pre_dec (it : igVecList.iterator) :
    Option (igVecList.iterator × igVecList.iterator) :=
  match it.p.add (-1) with
  | none => none
  | some q =>
    let this : igVecList.iterator := { p := q }
    some (this, this)

/-- Post-decrement `operator -- (int)`: `--p; return *this;`. Returns the iterator afterwards
and the value of the expression, a copy of `*this` taken after `--p`. -/
def igVecList.iterator.post_dec (it : igVecList.iterator) :
    Option (igVecList.iterator × igVecList.iterator) :=
  match it.p.add (-1) with
  | none => none
  | some q =>
    let this : igVecList.iterator := { p := q }
    some (this, this)

/-- The friend `operator ==` of the iterator: `lhs.p == rhs.p`. -/
def igVecList.iterator.op_eq (lhs rhs : igVecList.iterator) : Bool :=
  lhs.p == rhs.p

/-- The friend `operator -` on two iterators: `lhs.p - rhs.p`, the position of `lhs` counted
from `rhs`. -/
def igVecList.iterator.distance (lhs rhs : igVecList.iterator) : Option Int :=
  lhs.p.diff rhs.p

/-! ## The earlier `igVec` of `src/vec_pmt.hpp` -/

namespace SrcVecPmt

/-- The class `igVec<BASE>` of `src/vec_pmt.hpp`: the same two fields. -/
structure igVec where
  vec : Nat
  ptr : HPtr
deriving DecidableEq, Repr

/-- The method `is_alias`: `ptr != &vec`. -/
def igVec.is_alias (w : igVec) : Bool := w.ptr != HPtr.obj w.vec

/-- Aliasing constructor `igVec<BASE>(igAliasType v)`: member initialiser `ptr(&v.obj)`. -/
def igVec.igVec_alias (self : Nat) (v : HPtr) : igVec :=
  { vec := self, ptr := v }

/-- Move constructor `igVec<BASE>(igVec<BASE> &&other)`: `vec = other.vec` in every mode. -/
def igVec.igVec_move (st : Heap) (self : Nat) (other : igVec) : Heap × igVec × igVec :=
  let this : igVec := { vec := self, ptr := HPtr.obj self }
  ({ st with vecs := Function.update st.vecs self (st.vecs other.vec) }, this,
    { other with ptr := HPtr.null })

/-- Destructor `~igVec<BASE>()`. -/
def igVec.destructor (st : Heap) (w : igVec) : Option Heap :=
  if !w.is_alias then igraph_vector_destroy st w.ptr else some st

/-- The method `size`: `ptr->end - ptr->stor_begin`. -/
def igVec.size (st : Heap) (w : igVec) : Option Int :=
  match st.derefVec w.ptr with
  | none => none
  | some h => h.end_.diff h.stor_begin

/-- Read through `operator []`: the value of `begin()[i]`. -/
def igVec.index (st : Heap) (w : igVec) (i : Int) : Option Int :=
  match st.derefVec w.ptr with
  | none => none
  | some h =>
    match h.stor_begin.add i with
    | none => none
    | some p => loadCell st.elems p

end SrcVecPmt

/-! ## Concrete objects used to instantiate the theorems -/

/-- The heap after `igVec v(3)` for a wrapper at address 1. -/
def heapVec3 : Heap :=
  match igVec.igVec_sized Heap.empty 1 3 with
  | some r => r.1
  | none => Heap.empty

/-- The heap after `igMat m(2, 3)` for a wrapper at address 1. -/
def heapMat23 : Heap :=
  match igMat.igMat_sized Heap.empty 1 2 3 with
  | some r => r.1
  | none => Heap.empty

/-- The heap after `LIST_TYPE l(2)` for a list wrapper at address 1. -/
def heapList2 : Heap :=
  match igVecList.LIST_TYPE_sized Heap.empty 1 2 with
  | some r => r.1
  | none => Heap.empty

/-- The heap after `igVec a(2); igVec b(2); a[0] = 5; b[0] = 5; igVec c(3);` for wrappers at
the addresses 1, 2 and 3. -/
def heapTwoVecs : Heap :=
  match igVec.igVec_sized Heap.empty 1 2 with
  | none => Heap.empty
  | some (s1, a) =>
    match igVec.igVec_sized s1 2 2 with
    | none => Heap.empty
    | some (s2, b) =>
      match a.index_assign s2 0 5 with
      | none => Heap.empty
      | some s3 =>
        match b.index_assign s3 0 5 with
        | none => Heap.empty
        | some s4 =>
          match igVec.igVec_sized s4 3 3 with
          | none => Heap.empty
          | some (s5, _) => s5

/-- A heap with a 2 x 3 matrix at address 1 and a 3 x 2 matrix at address 2, each over a
buffer of its own holding 1, 2, 3, 4, 5, 6. -/
def heapTwoMats : Heap :=
  { Heap.empty with
    mats := fun a =>
      if a = 1 then
        some { data := { stor_begin := ⟨0, 0⟩, stor_end := ⟨0, 6⟩, end_ := ⟨0, 6⟩ },
               nrow := 2, ncol := 3 }
      else if a = 2 then
        some { data := { stor_begin := ⟨1, 0⟩, stor_end := ⟨1, 6⟩, end_ := ⟨1, 6⟩ },
               nrow := 3, ncol := 2 }
      else none,
    elems := [some [some 1, some 2, some 3, some 4, some 5, some 6],
              some [some 1, some 2, some 3, some 4, some 5, some 6]] }

/-- A heap with a 2 x 3 matrix of `igraph_real_t` at address 1 and a 3 x 2 matrix at address 2,
each over a buffer of its own holding the same six 64-bit patterns: the quiet NaN
`0x7FF8000000000000` followed by the patterns 2, 3, 4, 5, 6. -/
def heapTwoRealMats : Heap :=
  { heapTwoMats with
    elems := [some [some 0x7FF8000000000000, some 2, some 3, some 4, some 5, some 6],
              some [some 0x7FF8000000000000, some 2, some 3, some 4, some 5, some 6]] }

/-- The heap after `LIST_TYPE L; igVec v(3);` with `L` at address 100 and `v` at 200. -/
def heapListAndVec : Heap :=
  match igVecList.LIST_TYPE_sized Heap.empty 100 0 with
  | none => Heap.empty
  | some (s1, _) =>
    match igVec.igVec_sized s1 200 3 with
    | none => Heap.empty
    | some (s2, _) => s2

/-- The heap and `v` after `L.push_back(v)` on `heapListAndVec`. -/
def pushedOnce : Heap × igVec :=
  match igVecList.push_back_ref heapListAndVec { list := 100, ptr := HPtr.obj 100 }
      { vec := 200, ptr := HPtr.obj 200 } with
  | some r => r
  | none => (Heap.empty, { vec := 200, ptr := HPtr.null })

/-- The statements `LIST_TYPE L(2); igVec v(3); L.set(0, v); L.set(1, v);` with `L` at
address 100 and `v` at 200: the heap and `v` at the end. -/
def setTwice : Option (Heap × igVec) :=
  match igVecList.LIST_TYPE_sized Heap.empty 100 2 with
  | none => none
  | some (s1, L) =>
    match igVec.igVec_sized s1 200 3 with
    | none => none
    | some (s2, v) =>
      match L.set_ref s2 0 v with
      | none => none
      | some (s3, v1) => L.set_ref s3 1 v1

/-- The statements `LIST_TYPE L(2); igVec a = L.pop_back(); igVec b = L.pop_back();
igVec v(3); L.push_back(v); L.push_back(v);` with `L` at address 100, `a` at 101, `b` at 102
and `v` at 200: the heap and `v` at the end. -/
def pushTwice : Option (Heap × igVec) :=
  match igVecList.LIST_TYPE_sized Heap.empty 100 2 with
  | none => none
  | some (s1, L) =>
    match L.pop_back s1 101 with
    | none => none
    | some (s2, _) =>
      match L.pop_back s2 102 with
      | none => none
      | some (s3, _) =>
        match igVec.igVec_sized s3 200 3 with
        | none => none
        | some (s4, v) =>
          match L.push_back_ref s4 v with
          | none => none
          | some (s5, v1) => L.push_back_ref s5 v1

/-- The statements `LIST_TYPE L(2); igVec v(3); L.set(0, v); L.push_back(L[0]);` after the two
slots of `L(2)` are popped as in `pushTwice`: the rvalue overload receives the alias `L[0]`. -/
def pushIndexed : Option (Heap × igVec) :=
  match igVecList.LIST_TYPE_sized Heap.empty 100 2 with
  | none => none
  | some (s1, L) =>
    match L.pop_back s1 101 with
    | none => none
    | some (s2, _) =>
      match L.pop_back s2 102 with
      | none => none
      | some (s3, _) =>
        match igVec.igVec_sized s3 200 3 with
        | none => none
        | some (s4, v) =>
          match L.push_back_ref s4 v with
          | none => none
          | some (s5, _) =>
            match L.index s5 300 0 with
            | none => none
            | some tmp => L.push_back_rvalue s5 tmp

/-- Two slots `p` and `q` of the heap hold handles of one live buffer. -/
def sharesBuffer (st : Heap) (p q : EPtr) : Bool :=
  match st.derefVec (HPtr.slot p), st.derefVec (HPtr.slot q) with
  | some hp, some hq =>
    hp.stor_begin == hq.stor_begin && (blockCells st.elems hp.stor_begin.blk).isSome
  | _, _ => false

/-- The relation between the heaps before and after a copy from the handle `hs` behind `src`
to the handle behind `dst`: `src` still holds `hs`, `dst` holds a handle with `n` live cells
in another block, the block of `hs` reads as before, and the first `n` cells behind `dst`
read as the first `n` cells behind `src` did. -/
def CopyPost (st st1 : Heap) (src dst : HPtr) (hs : igraph_vector_t) (n : Nat) : Prop :=
  st.derefVec src = some hs ∧ st1.derefVec src = some hs ∧
  ∃ hd1, st1.derefVec dst = some hd1 ∧
    hd1.stor_begin.blk ≠ hs.stor_begin.blk ∧
    hd1.end_ = ⟨hd1.stor_begin.blk, hd1.stor_begin.off + n⟩ ∧
    (∀ q : EPtr, q.blk = hs.stor_begin.blk → loadCell st1.elems q = loadCell st.elems q) ∧
    (∀ i, i < n → loadCell st1.elems ⟨hd1.stor_begin.blk, hd1.stor_begin.off + i⟩ =
      loadCell st.elems ⟨hs.stor_begin.blk, hs.stor_begin.off + i⟩) ∧
    ∃ dc, blockCells st1.elems hd1.stor_begin.blk = some dc ∧ hd1.stor_begin.off + n ≤ dc.length

/-- The outcome of a deep copy of `a` into `b`, from the heap `st` to the heap `st1`: `b` has
the size `n` of `a` and reads the elements `a` read, `a` reads what it read before, the two
wrappers view different buffers, and a write `b[0] = x` completes, is read back through `b`
and leaves the size and every element of `a` as they were in `st`. -/
def DeepCopy (st st1 : Heap) (a b : igVec) (n : Int) : Prop :=
  b.size st1 = some n ∧
  (∀ i : Int, 0 ≤ i → i < n → b.index st1 i = a.index st i) ∧
  (∀ i : Int, a.index st1 i = a.index st i) ∧
  (∃ ha hb, st1.derefVec a.ptr = some ha ∧ st1.derefVec b.ptr = some hb ∧
    hb.stor_begin.blk ≠ ha.stor_begin.blk) ∧
  (∀ x : Int, ∃ st2, b.index_assign st1 0 x = some st2 ∧ b.index st2 0 = some x ∧
    a.size st2 = some n ∧ ∀ i : Int, a.index st2 i = a.index st i)

/-- The heap after `LIST_TYPE L; igVec v(3); igVec w(1); L.push_back(v); L.push_back(w);` with
`L` at address 100, `v` at 200 and `w` at 201: slot 0 holds a vector of size 3 and slot 1 a
vector of size 1. -/
def heapListTwoItems : Heap :=
  match igVecList.LIST_TYPE_sized Heap.empty 100 0 with
  | none => Heap.empty
  | some (s1, L) =>
    match igVec.igVec_sized s1 200 3 with
    | none => Heap.empty
    | some (s2, v) =>
      match igVec.igVec_sized s2 201 1 with
      | none => Heap.empty
      | some (s3, w) =>
        match L.push_back_ref s3 v with
        | none => Heap.empty
        | some (s4, _) =>
          match L.push_back_ref s4 w with
          | none => Heap.empty
          | some (s5, _) => s5

/-! ## Theorems -/

/-- C1: move construction `dst(std::move(other))` of `igVec`, `igMat` and the list wrapper
from a source that is not moved-from. An owning source makes `dst` owning
(`dst.ptr == &dst.embedded`) with the embedded handle copied field for field; a source
aliasing a handle makes `dst` point to the same handle, so `dst` is an alias of it whenever
that handle is not `dst`'s own field; the source pointer is null afterwards; no runtime
primitive is called and no storage block changes. -/
theorem C1_move_construction (st : Heap) (self : Nat) :
    (∀ other : igVec, other.ptr ≠ HPtr.null →
      (other.is_alias = false →
        (igVec.igVec_move st self other).2.1.is_alias = false ∧
        (igVec.igVec_move st self other).2.1 = { vec := self, ptr := HPtr.obj self } ∧
        (igVec.igVec_move st self other).1.vecs self = st.vecs other.vec) ∧
      (other.is_alias = true →
        (igVec.igVec_move st self other).2.1 = { vec := self, ptr := other.ptr } ∧
        (other.ptr ≠ HPtr.obj self → (igVec.igVec_move st self other).2.1.is_alias = true) ∧
        (igVec.igVec_move st self other).1.vecs = st.vecs) ∧
      (igVec.igVec_move st self other).2.2 = { vec := other.vec, ptr := HPtr.null } ∧
      (igVec.igVec_move st self other).1.trace = st.trace ∧
      (igVec.igVec_move st self other).1.elems = st.elems ∧
      (igVec.igVec_move st self other).1.slots = st.slots) ∧
    (∀ other : igMat, other.ptr ≠ HPtr.null →
      (other.is_alias = false →
        (igMat.igMat_move st self other).2.1.is_alias = false ∧
        (igMat.igMat_move st self other).2.1 = { mat := self, ptr := HPtr.obj self } ∧
        (igMat.igMat_move st self other).1.mats self = st.mats other.mat) ∧
      (other.is_alias = true →
        (igMat.igMat_move st self other).2.1 = { mat := self, ptr := other.ptr } ∧
        (other.ptr ≠ HPtr.obj self → (igMat.igMat_move st self other).2.1.is_alias = true) ∧
        (igMat.igMat_move st self other).1.mats = st.mats) ∧
      (igMat.igMat_move st self other).2.2 = { mat := other.mat, ptr := HPtr.null } ∧
      (igMat.igMat_move st self other).1.trace = st.trace ∧
      (igMat.igMat_move st self other).1.elems = st.elems ∧
      (igMat.igMat_move st self other).1.slots = st.slots) ∧
    (∀ other : igVecList, other.ptr ≠ HPtr.null →
      (other.is_alias = false →
        (igVecList.LIST_TYPE_move st self other).2.1.is_alias = false ∧
        (igVecList.LIST_TYPE_move st self other).2.1 = { list := self, ptr := HPtr.obj self } ∧
        (igVecList.LIST_TYPE_move st self other).1.lists self = st.lists other.list) ∧
      (other.is_alias = true →
        (igVecList.LIST_TYPE_move st self other).2.1 = { list := self, ptr := other.ptr } ∧
        (other.ptr ≠ HPtr.obj self →
          (igVecList.LIST_TYPE_move st self other).2.1.is_alias = true) ∧
        (igVecList.LIST_TYPE_move st self other).1.lists = st.lists) ∧
      (igVecList.LIST_TYPE_move st self other).2.2 = { list := other.list, ptr := HPtr.null } ∧
      (igVecList.LIST_TYPE_move st self other).1.trace = st.trace ∧
      (igVecList.LIST_TYPE_move st self other).1.elems = st.elems ∧
      (igVecList.LIST_TYPE_move st self other).1.slots = st.slots) := by
  refine ⟨?_, ?_, ?_⟩
  · intro other _
    by_cases h : other.ptr = HPtr.obj other.vec
    · simp [igVec.igVec_move, igVec.is_alias, h]
    · simp [igVec.igVec_move, igVec.is_alias, h]
  · intro other _
    by_cases h : other.ptr = HPtr.obj other.mat
    · simp [igMat.igMat_move, igMat.is_alias, h]
    · simp [igMat.igMat_move, igMat.is_alias, h]
  · intro other _
    by_cases h : other.ptr = HPtr.obj other.list
    · simp [igVecList.LIST_TYPE_move, igVecList.is_alias, h]
    · simp [igVecList.LIST_TYPE_move, igVecList.is_alias, h]

/-- Instance of C1: moving the owning `igVec v(3)`, an alias of it, the owning `igMat m(2, 3)`
and the owning list `l(2)` into new objects at address 2. -/
theorem C1_move_construction_witness :
    ((igVec.igVec_move heapVec3 2 { vec := 1, ptr := HPtr.obj 1 }).2.1 =
        { vec := 2, ptr := HPtr.obj 2 } ∧
      (igVec.igVec_move heapVec3 2 { vec := 1, ptr := HPtr.obj 1 }).1.vecs 2 =
        heapVec3.vecs 1) ∧
    ((igVec.igVec_move heapVec3 2 { vec := 3, ptr := HPtr.obj 1 }).2.1 =
        { vec := 2, ptr := HPtr.obj 1 } ∧
      (igVec.igVec_move heapVec3 2 { vec := 3, ptr := HPtr.obj 1 }).2.1.is_alias = true) ∧
    (igVec.igVec_move heapVec3 2 { vec := 3, ptr := HPtr.obj 1 }).2.2 =
      { vec := 3, ptr := HPtr.null } ∧
    (igMat.igMat_move heapMat23 2 { mat := 1, ptr := HPtr.obj 1 }).1.mats 2 =
      heapMat23.mats 1 ∧
    (igVecList.LIST_TYPE_move heapList2 2 { list := 1, ptr := HPtr.obj 1 }).1.lists 2 =
      heapList2.lists 1 :=
  ⟨⟨(((C1_move_construction heapVec3 2).1 { vec := 1, ptr := HPtr.obj 1 } (by decide)).1
        (by decide)).2.1,
      (((C1_move_construction heapVec3 2).1 { vec := 1, ptr := HPtr.obj 1 } (by decide)).1
        (by decide)).2.2⟩,
    ⟨(((C1_move_construction heapVec3 2).1 { vec := 3, ptr := HPtr.obj 1 } (by decide)).2.1
        (by decide)).1,
      (((C1_move_construction heapVec3 2).1 { vec := 3, ptr := HPtr.obj 1 } (by decide)).2.1
        (by decide)).2.1 (by decide)⟩,
    ((C1_move_construction heapVec3 2).1 { vec := 3, ptr := HPtr.obj 1 } (by decide)).2.2.1,
    (((C1_move_construction heapMat23 2).2.1 { mat := 1, ptr := HPtr.obj 1 } (by decide)).1
      (by decide)).2.2,
    (((C1_move_construction heapList2 2).2.2 { list := 1, ptr := HPtr.obj 1 } (by decide)).1
      (by decide)).2.2⟩

/-- C2: the destructors of `igVec`, `igMat` and the list wrapper. An owning wrapper
(`ptr == &embedded`, hence not null) runs exactly the runtime's `destroy` on its pointer, and
a completed run adds that one call to the trace; every other wrapper, aliasing or moved-from
with a null pointer, returns with the heap untouched on every heap, so nothing is destroyed
and no handle is dereferenced. -/
theorem C2_destructor (st : Heap) :
    (∀ w : igVec,
      (w.ptr = HPtr.obj w.vec →
        w.ptr ≠ HPtr.null ∧
        igVec.destructor st w = igraph_vector_destroy st w.ptr ∧
        ∀ st1, igVec.destructor st w = some st1 →
          st1.trace = st.trace ++ [RtCall.vector_destroy w.ptr]) ∧
      (w.ptr ≠ HPtr.obj w.vec → igVec.destructor st w = some st)) ∧
    (∀ w : igMat,
      (w.ptr = HPtr.obj w.mat →
        w.ptr ≠ HPtr.null ∧
        igMat.destructor st w = igraph_matrix_destroy st w.ptr ∧
        ∀ st1, igMat.destructor st w = some st1 →
          st1.trace = st.trace ++ [RtCall.matrix_destroy w.ptr]) ∧
      (w.ptr ≠ HPtr.obj w.mat → igMat.destructor st w = some st)) ∧
    (∀ w : igVecList,
      (w.ptr = HPtr.obj w.list →
        w.ptr ≠ HPtr.null ∧
        igVecList.destructor st w = igraph_vector_list_destroy st w.ptr ∧
        ∀ st1, igVecList.destructor st w = some st1 →
          st1.trace = st.trace ++ [RtCall.list_destroy w.ptr]) ∧
      (w.ptr ≠ HPtr.obj w.list → igVecList.destructor st w = some st)) := by
  refine ⟨?_, ?_, ?_⟩
  · intro w
    refine ⟨?_, ?_⟩
    · intro h
      have hd : igVec.destructor st w = igraph_vector_destroy st w.ptr := by
        simp [igVec.destructor, igVec.is_alias, h]
      refine ⟨by rw [h]; exact fun hc => HPtr.noConfusion hc, hd, ?_⟩
      intro st1 h1
      rw [hd] at h1
      unfold igraph_vector_destroy at h1
      split at h1
      · simp at h1
      · split at h1
        · simp at h1
        · simp only [Option.some.injEq] at h1
          rw [← h1]
          rfl
    · intro h
      simp [igVec.destructor, igVec.is_alias, h]
  · intro w
    refine ⟨?_, ?_⟩
    · intro h
      have hd : igMat.destructor st w = igraph_matrix_destroy st w.ptr := by
        simp [igMat.destructor, igMat.is_alias, h]
      refine ⟨by rw [h]; exact fun hc => HPtr.noConfusion hc, hd, ?_⟩
      intro st1 h1
      rw [hd] at h1
      unfold igraph_matrix_destroy at h1
      split at h1
      · simp at h1
      · split at h1
        · simp at h1
        · simp only [Option.some.injEq] at h1
          rw [← h1]
          rfl
    · intro h
      simp [igMat.destructor, igMat.is_alias, h]
  · intro w
    refine ⟨?_, ?_⟩
    · intro h
      have hd : igVecList.destructor st w = igraph_vector_list_destroy st w.ptr := by
        simp [igVecList.destructor, igVecList.is_alias, h]
      refine ⟨by rw [h]; exact fun hc => HPtr.noConfusion hc, hd, ?_⟩
      intro st1 h1
      rw [hd] at h1
      unfold igraph_vector_list_destroy at h1
      split at h1
      · simp at h1
      · split at h1
        · split at h1
          · split at h1
            · simp at h1
            · split at h1
              · simp at h1
              · simp only [Option.some.injEq] at h1
                rw [← h1]
                rfl
          · simp at h1
        · simp at h1
    · intro h
      simp [igVecList.destructor, igVecList.is_alias, h]

/-- Instance of C2: the owning `igVec v(3)` is destroyed through one `destroy` call, an alias
of the same handle and a moved-from wrapper leave the heap as it is. -/
theorem C2_destructor_witness :
    (∃ st1, igVec.destructor heapVec3 { vec := 1, ptr := HPtr.obj 1 } = some st1 ∧
      st1.trace = heapVec3.trace ++ [RtCall.vector_destroy (HPtr.obj 1)] ∧
      st1.elems = [none]) ∧
    igVec.destructor heapVec3 { vec := 2, ptr := HPtr.obj 1 } = some heapVec3 ∧
    igVec.destructor heapVec3 { vec := 1, ptr := HPtr.null } = some heapVec3 :=
  ⟨⟨_, rfl,
      (((C2_destructor heapVec3).1 { vec := 1, ptr := HPtr.obj 1 }).1 rfl).2.2 _ rfl, rfl⟩,
    ((C2_destructor heapVec3).1 { vec := 2, ptr := HPtr.obj 1 }).2 (by decide),
    ((C2_destructor heapVec3).1 { vec := 1, ptr := HPtr.null }).2 (by decide)⟩

/-! ### Equality operators -/

/-- The loop of `igVec`'s `operator ==` returns, and it returns `true` exactly when the two
wrappers agree on every remaining index. -/
theorem igVec.eq_loop_spec (st : Heap) (lhs rhs : igVec) (n : Int) :
    ∀ (k : Nat) (i : Int), n ≤ i + k →
      (∀ j, i ≤ j → j < n → (lhs.index st j).isSome ∧ (rhs.index st j).isSome) →
      ∃ b, igVec.eq_loop st lhs rhs n k i = some b ∧
        (b = true ↔ ∀ j, i ≤ j → j < n → lhs.index st j = rhs.index st j) := by
  intro k
  induction k with
  | zero =>
    intro i hk _
    refine ⟨true, ?_, ?_⟩
    · have : ¬ i < n := by omega
      simp [igVec.eq_loop, this]
    · simp only [true_iff]
      intro j h1 h2
      omega
  | succ k ih =>
    intro i hk hv
    by_cases hin : i < n
    · obtain ⟨hl, hr⟩ := hv i (le_refl i) hin
      obtain ⟨a, ha⟩ := Option.isSome_iff_exists.mp hl
      obtain ⟨c, hc⟩ := Option.isSome_iff_exists.mp hr
      by_cases hac : a = c
      · obtain ⟨b, hb, hiff⟩ := ih (i + 1) (by push_cast at hk; omega)
          (fun j h1 h2 => hv j (by omega) h2)
        refine ⟨b, ?_, ?_⟩
        · simp [igVec.eq_loop, hin, ha, hc, hac, hb]
        · rw [hiff]
          constructor
          · intro h j h1 h2
            by_cases hji : j = i
            · rw [hji, ha, hc, hac]
            · exact h j (by omega) h2
          · intro h j h1 h2
            exact h j (by omega) h2
      · refine ⟨false, ?_, ?_⟩
        · simp [igVec.eq_loop, hin, ha, hc, hac]
        · simp only [Bool.false_eq_true, false_iff]
          intro h
          have := h i (le_refl i) hin
          rw [ha, hc] at this
          exact hac (Option.some.inj this)
    · refine ⟨true, ?_, ?_⟩
      · simp [igVec.eq_loop, hin]
      · simp only [true_iff]
        intro j h1 h2
        omega

/-- The accessors `size` and `operator []` of `igVec` only look at the handle pointer. -/
theorem igVec.access_congr (st : Heap) (lhs rhs : igVec) (h : lhs.ptr = rhs.ptr) :
    lhs.size st = rhs.size st ∧ ∀ i, lhs.index st i = rhs.index st i := by
  constructor
  · simp [igVec.size, h]
  · intro i
    simp [igVec.index, igVec.begin_, h]

/-- The loop of `igMat`'s `operator ==` returns, and it returns `true` exactly when `!=` of
the element type is false on the two elements at every remaining flat offset. -/
theorem igMat.mat_eq_loop_spec (ne : Int → Int → Bool) (st : Heap) (lhs rhs : igMat) (n : Int) :
    ∀ (k : Nat) (i : Int), n ≤ i + k →
      (∀ j, i ≤ j → j < n → (lhs.index st j).isSome ∧ (rhs.index st j).isSome) →
      ∃ b, igMat.eq_loop ne st lhs rhs n k i = some b ∧
        (b = true ↔ ∀ j x y, i ≤ j → j < n → lhs.index st j = some x →
          rhs.index st j = some y → ne x y = false) := by
  intro k
  induction k with
  | zero =>
    intro i hk _
    refine ⟨true, ?_, ?_⟩
    · have : ¬ i < n := by omega
      simp [igMat.eq_loop, this]
    · simp only [true_iff]
      intro j x y h1 h2
      omega
  | succ k ih =>
    intro i hk hv
    by_cases hin : i < n
    · obtain ⟨hl, hr⟩ := hv i (le_refl i) hin
      obtain ⟨a, ha⟩ := Option.isSome_iff_exists.mp hl
      obtain ⟨c, hc⟩ := Option.isSome_iff_exists.mp hr
      by_cases hac : ne a c = true
      · refine ⟨false, ?_, ?_⟩
        · simp [igMat.eq_loop, hin, ha, hc, hac]
        · simp only [Bool.false_eq_true, false_iff]
          intro h
          have := h i a c (le_refl i) hin ha hc
          rw [hac] at this
          exact absurd this (by decide)
      · simp only [Bool.not_eq_true] at hac
        obtain ⟨b, hb, hiff⟩ := ih (i + 1) (by push_cast at hk; omega)
          (fun j h1 h2 => hv j (by omega) h2)
        refine ⟨b, ?_, ?_⟩
        · simp [igMat.eq_loop, hin, ha, hc, hac, hb]
        · rw [hiff]
          constructor
          · intro h j x y h1 h2 hx hy
            by_cases hji : j = i
            · subst hji
              rw [ha] at hx
              rw [hc] at hy
              rw [← Option.some.inj hx, ← Option.some.inj hy]
              exact hac
            · exact h j x y (by omega) h2 hx hy
          · intro h j x y h1 h2 hx hy
            exact h j x y (by omega) h2 hx hy
    · refine ⟨true, ?_, ?_⟩
      · simp [igMat.eq_loop, hin]
      · simp only [true_iff]
        intro j x y h1 h2
        omega

/-- The accessors of `igMat` that `operator ==` uses do not read the dimensions. -/
theorem igMat.access_withDims (st : Heap) (dims : Nat → Int × Int) (w : igMat) :
    w.size (st.withDims dims) = w.size st ∧ ∀ i, w.index (st.withDims dims) i = w.index st i := by
  cases hp : w.ptr with
  | null => simp [igMat.size, igMat.index, igMat.begin_, Heap.derefMat, hp]
  | slot q => simp [igMat.size, igMat.index, igMat.begin_, Heap.derefMat, hp]
  | obj a =>
    cases hm : st.mats a with
    | none =>
      simp [igMat.size, igMat.index, igMat.begin_, Heap.derefMat, Heap.withDims, hp, hm]
    | some h =>
      simp [igMat.size, igMat.index, igMat.begin_, Heap.derefMat, Heap.withDims, hp, hm]

/-- The loop of `igMat`'s `operator ==` does not read the dimensions. -/
theorem igMat.eq_loop_withDims (ne : Int → Int → Bool) (st : Heap) (dims : Nat → Int × Int)
    (lhs rhs : igMat) (n : Int) :
    ∀ (k : Nat) (i : Int),
      igMat.eq_loop ne (st.withDims dims) lhs rhs n k i = igMat.eq_loop ne st lhs rhs n k i := by
  intro k
  induction k with
  | zero =>
    intro i
    simp [igMat.eq_loop]
  | succ k ih =>
    intro i
    simp only [igMat.eq_loop, (igMat.access_withDims st dims lhs).2,
      (igMat.access_withDims st dims rhs).2, ih]

/-- C8: `lhs == rhs` on two `igVec` wrappers over valid handles (the sizes are defined and
every element below the size can be read) returns a value, and that value is `true` if and
only if the sizes are equal and `lhs[i] == rhs[i]` for every `0 <= i < size`; it is `true`
when both wrappers hold the same pointer, `false` when the sizes differ, and `lhs != rhs`
returns the negation. -/
theorem C8_vec_equality (st : Heap) (lhs rhs : igVec) (n m : Int)
    (hn : lhs.size st = some n) (hm : rhs.size st = some m)
    (hl : ∀ i, 0 ≤ i → i < n → (lhs.index st i).isSome)
    (hr : ∀ i, 0 ≤ i → i < m → (rhs.index st i).isSome) :
    ∃ b, igVec.op_eq st lhs rhs = some b ∧
      (b = true ↔ n = m ∧ ∀ i, 0 ≤ i → i < n → lhs.index st i = rhs.index st i) ∧
      (lhs.ptr = rhs.ptr → b = true) ∧
      (n ≠ m → b = false) ∧
      igVec.op_ne st lhs rhs = some (!b) := by
  by_cases hp : lhs.ptr = rhs.ptr
  · obtain ⟨hs, hi⟩ := igVec.access_congr st lhs rhs hp
    have hnm : n = m := by
      rw [hn, hm] at hs
      exact Option.some.inj hs
    refine ⟨true, ?_, ?_, ?_, ?_, ?_⟩
    · simp [igVec.op_eq, hp]
    · simp only [true_iff]
      exact ⟨hnm, fun i _ _ => hi i⟩
    · intro _
      rfl
    · intro h
      exact absurd hnm h
    · simp [igVec.op_ne, igVec.op_eq, hp]
  · by_cases hnm : n = m
    · subst hnm
      obtain ⟨b, hb, hiff⟩ := igVec.eq_loop_spec st lhs rhs n n.toNat 0 (by omega)
        (fun j h1 h2 => ⟨hl j h1 h2, hr j h1 h2⟩)
      have heq : igVec.op_eq st lhs rhs = some b := by
        simp [igVec.op_eq, hp, hn, hm, hb]
      refine ⟨b, heq, ?_, ?_, ?_, ?_⟩
      · rw [hiff]
        simp
      · intro h
        exact absurd h hp
      · intro h
        exact absurd rfl h
      · simp [igVec.op_ne, heq]
    · have heq : igVec.op_eq st lhs rhs = some false := by
        have hmn : m ≠ n := fun h => hnm h.symm
        simp [igVec.op_eq, hp, hn, hm, hmn]
      refine ⟨false, heq, ?_, ?_, ?_, ?_⟩
      · simp [hnm]
      · intro h
        exact absurd h hp
      · intro _
        rfl
      · simp [igVec.op_ne, heq]

/-- Instance of C8: `a` and `b`, constructed one after the other with the contents 5, 0 in
buffers of their own, hold different pointers and compare equal. -/
theorem C8_vec_equality_witness :
    igVec.op_eq heapTwoVecs { vec := 1, ptr := HPtr.obj 1 } { vec := 2, ptr := HPtr.obj 2 } =
      some true ∧
    heapTwoVecs.vecs 1 ≠ heapTwoVecs.vecs 2 := by
  have hreads : ∀ (a : Nat) (i : Int), (a = 1 ∨ a = 2) → 0 ≤ i → i < 2 →
      igVec.index heapTwoVecs { vec := a, ptr := HPtr.obj a } i =
        some (if i = 0 then 5 else 0) := by
    intro a i ha h0 h2
    have hi : i = 0 ∨ i = 1 := by omega
    rcases ha with rfl | rfl <;> rcases hi with rfl | rfl <;> rfl
  obtain ⟨b, hb, hiff, -⟩ := C8_vec_equality heapTwoVecs
    { vec := 1, ptr := HPtr.obj 1 } { vec := 2, ptr := HPtr.obj 2 } 2 2 rfl rfl
    (fun i h0 h2 => by rw [hreads 1 i (Or.inl rfl) h0 h2]; rfl)
    (fun i h0 h2 => by rw [hreads 2 i (Or.inr rfl) h0 h2]; rfl)
  have hbt : b = true :=
    hiff.2 ⟨rfl, fun i h0 h2 => by
      rw [hreads 1 i (Or.inl rfl) h0 h2, hreads 2 i (Or.inr rfl) h0 h2]⟩
  rw [hbt] at hb
  exact ⟨hb, by decide⟩

/-- C10 as stated fails for `igMat<igraph_real_t>`: a 2 x 3 matrix and a 3 x 2 matrix over
buffers of the same length 6 that hold the same element at every flat offset, the first of
them a NaN, compare unequal, because the loop returns `false` at the first offset where
`lhs[i] != rhs[i]` and a NaN is unequal to itself. -/
theorem C10_same_nan_elements_compare_unequal :
    igMat.size heapTwoRealMats { mat := 1, ptr := HPtr.obj 1 } = some 6 ∧
    igMat.size heapTwoRealMats { mat := 2, ptr := HPtr.obj 2 } = some 6 ∧
    igMat.index heapTwoRealMats { mat := 1, ptr := HPtr.obj 1 } 0 =
      igMat.index heapTwoRealMats { mat := 2, ptr := HPtr.obj 2 } 0 ∧
    igMat.index heapTwoRealMats { mat := 1, ptr := HPtr.obj 1 } 1 =
      igMat.index heapTwoRealMats { mat := 2, ptr := HPtr.obj 2 } 1 ∧
    igMat.index heapTwoRealMats { mat := 1, ptr := HPtr.obj 1 } 2 =
      igMat.index heapTwoRealMats { mat := 2, ptr := HPtr.obj 2 } 2 ∧
    igMat.index heapTwoRealMats { mat := 1, ptr := HPtr.obj 1 } 3 =
      igMat.index heapTwoRealMats { mat := 2, ptr := HPtr.obj 2 } 3 ∧
    igMat.index heapTwoRealMats { mat := 1, ptr := HPtr.obj 1 } 4 =
      igMat.index heapTwoRealMats { mat := 2, ptr := HPtr.obj 2 } 4 ∧
    igMat.index heapTwoRealMats { mat := 1, ptr := HPtr.obj 1 } 5 =
      igMat.index heapTwoRealMats { mat := 2, ptr := HPtr.obj 2 } 5 ∧
    igMat.index heapTwoRealMats { mat := 1, ptr := HPtr.obj 1 } 0 = some 0x7FF8000000000000 ∧
    real_is_nan 0x7FF8000000000000 = true ∧
    igMat.op_eq real_ne heapTwoRealMats { mat := 1, ptr := HPtr.obj 1 }
      { mat := 2, ptr := HPtr.obj 2 } = some false ∧
    igMat.op_eq real_ne heapTwoRealMats { mat := 1, ptr := HPtr.obj 1 }
      { mat := 2, ptr := HPtr.obj 2 } ≠ some true :=
  ⟨rfl, rfl, rfl, rfl, rfl, rfl, rfl, rfl, rfl, by decide, by decide, by decide⟩

/-- C10, amended: `lhs == rhs` on two `igMat<BASE>` wrappers depends on the flat element
sequences alone and never on the dimensions. (1) Giving the matrix handles any other `nrow`
and `ncol` leaves the result as it is. (2) When the flat sizes are defined and the elements
below them readable, the operator returns a value, which is `true` exactly when the two
wrappers hold the same pointer or the flat sizes are equal and `lhs[i] != rhs[i]` is false in
`BASE` at every flat offset; `operator !=` returns the negation. (3) So two wrappers whose
flat buffers have the same length and hold the same element at every flat offset, each
element equal to itself in `BASE` (no NaN), compare equal whatever their dimensions are. -/
theorem C10_mat_equality_ignores_dims (ne : Int → Int → Bool) (st : Heap) (lhs rhs : igMat) :
    (∀ dims : Nat → Int × Int,
      igMat.op_eq ne (st.withDims dims) lhs rhs = igMat.op_eq ne st lhs rhs) ∧
    (∀ n m : Int, lhs.size st = some n → rhs.size st = some m →
      (∀ i, 0 ≤ i → i < n → (lhs.index st i).isSome) →
      (∀ i, 0 ≤ i → i < m → (rhs.index st i).isSome) →
      ∃ b, igMat.op_eq ne st lhs rhs = some b ∧
        (b = true ↔ lhs.ptr = rhs.ptr ∨
          (n = m ∧ ∀ i x y, 0 ≤ i → i < n → lhs.index st i = some x →
            rhs.index st i = some y → ne x y = false)) ∧
        igMat.op_ne ne st lhs rhs = some (!b)) ∧
    (∀ n : Int, lhs.size st = some n → rhs.size st = some n →
      (∀ i, 0 ≤ i → i < n →
        ∃ x, lhs.index st i = some x ∧ rhs.index st i = some x ∧ ne x x = false) →
      igMat.op_eq ne st lhs rhs = some true) := by
  have htwo : ∀ n m : Int, lhs.size st = some n → rhs.size st = some m →
      (∀ i, 0 ≤ i → i < n → (lhs.index st i).isSome) →
      (∀ i, 0 ≤ i → i < m → (rhs.index st i).isSome) →
      ∃ b, igMat.op_eq ne st lhs rhs = some b ∧
        (b = true ↔ lhs.ptr = rhs.ptr ∨
          (n = m ∧ ∀ i x y, 0 ≤ i → i < n → lhs.index st i = some x →
            rhs.index st i = some y → ne x y = false)) ∧
        igMat.op_ne ne st lhs rhs = some (!b) := by
    intro n m hn hm hl hr
    by_cases hp : lhs.ptr = rhs.ptr
    · refine ⟨true, ?_, ?_, ?_⟩
      · simp [igMat.op_eq, hp]
      · simp [hp]
      · simp [igMat.op_ne, igMat.op_eq, hp]
    · by_cases hnm : n = m
      · subst hnm
        obtain ⟨b, hb, hiff⟩ := igMat.mat_eq_loop_spec ne st lhs rhs n n.toNat 0 (by omega)
          (fun j h1 h2 => ⟨hl j h1 h2, hr j h1 h2⟩)
        have heq : igMat.op_eq ne st lhs rhs = some b := by
          simp [igMat.op_eq, hp, hn, hm, hb]
        refine ⟨b, heq, ?_, ?_⟩
        · rw [hiff]
          simp [hp]
        · simp [igMat.op_ne, heq]
      · have heq : igMat.op_eq ne st lhs rhs = some false := by
          have hmn : m ≠ n := fun h => hnm h.symm
          simp [igMat.op_eq, hp, hn, hm, hmn]
        refine ⟨false, heq, ?_, ?_⟩
        · simp [hp, hnm]
        · simp [igMat.op_ne, heq]
  refine ⟨?_, htwo, ?_⟩
  · intro dims
    simp only [igMat.op_eq, (igMat.access_withDims st dims lhs).1,
      (igMat.access_withDims st dims rhs).1, igMat.eq_loop_withDims]
  · intro n hn hm hel
    obtain ⟨b, hb, hiff, -⟩ := htwo n n hn hm
      (fun i h0 h1 => by
        obtain ⟨x, hx, -, -⟩ := hel i h0 h1
        simp [hx])
      (fun i h0 h1 => by
        obtain ⟨x, -, hy, -⟩ := hel i h0 h1
        simp [hy])
    have hbt : b = true :=
      hiff.2 (Or.inr ⟨rfl, fun i x y h0 h1 hx hy => by
        obtain ⟨z, hz1, hz2, hz⟩ := hel i h0 h1
        rw [hz1] at hx
        rw [hz2] at hy
        rw [← Option.some.inj hx, ← Option.some.inj hy]
        exact hz⟩)
    rw [hbt] at hb
    exact hb

/-- Instance of C10 (amended): a 2 x 3 matrix and a 3 x 2 matrix over the same six stored
values 1, ..., 6 compare equal although the dimensions differ, for an integer and for a real
element type, and the result stays the same when both are given the dimensions 6 x 1. -/
theorem C10_mat_equality_ignores_dims_witness :
    igMat.op_eq int_ne heapTwoMats { mat := 1, ptr := HPtr.obj 1 }
      { mat := 2, ptr := HPtr.obj 2 } = some true ∧
    igMat.op_eq real_ne heapTwoMats { mat := 1, ptr := HPtr.obj 1 }
      { mat := 2, ptr := HPtr.obj 2 } = some true ∧
    igMat.nrow heapTwoMats { mat := 1, ptr := HPtr.obj 1 } = some 2 ∧
    igMat.ncol heapTwoMats { mat := 1, ptr := HPtr.obj 1 } = some 3 ∧
    igMat.nrow heapTwoMats { mat := 2, ptr := HPtr.obj 2 } = some 3 ∧
    igMat.ncol heapTwoMats { mat := 2, ptr := HPtr.obj 2 } = some 2 ∧
    igMat.nrow (heapTwoMats.withDims fun _ => (6, 1)) { mat := 2, ptr := HPtr.obj 2 } =
      some 6 ∧
    igMat.op_eq int_ne (heapTwoMats.withDims fun _ => (6, 1)) { mat := 1, ptr := HPtr.obj 1 }
      { mat := 2, ptr := HPtr.obj 2 } = some true := by
  have hreads : ∀ i : Int, 0 ≤ i → i < 6 →
      igMat.index heapTwoMats { mat := 1, ptr := HPtr.obj 1 } i = some (i + 1) ∧
      igMat.index heapTwoMats { mat := 2, ptr := HPtr.obj 2 } i = some (i + 1) := by
    intro i h0 h6
    have hi : i = 0 ∨ i = 1 ∨ i = 2 ∨ i = 3 ∨ i = 4 ∨ i = 5 := by omega
    rcases hi with rfl | rfl | rfl | rfl | rfl | rfl <;> exact ⟨rfl, rfl⟩
  have hint : igMat.op_eq int_ne heapTwoMats { mat := 1, ptr := HPtr.obj 1 }
      { mat := 2, ptr := HPtr.obj 2 } = some true :=
    (C10_mat_equality_ignores_dims int_ne heapTwoMats { mat := 1, ptr := HPtr.obj 1 }
      { mat := 2, ptr := HPtr.obj 2 }).2.2 6 rfl rfl
      (fun i h0 h6 => ⟨i + 1, (hreads i h0 h6).1, (hreads i h0 h6).2, by simp [int_ne]⟩)
  have hreal : igMat.op_eq real_ne heapTwoMats { mat := 1, ptr := HPtr.obj 1 }
      { mat := 2, ptr := HPtr.obj 2 } = some true :=
    (C10_mat_equality_ignores_dims real_ne heapTwoMats { mat := 1, ptr := HPtr.obj 1 }
      { mat := 2, ptr := HPtr.obj 2 }).2.2 6 rfl rfl
      (fun i h0 h6 => ⟨i + 1, (hreads i h0 h6).1, (hreads i h0 h6).2, by
        have hi : i = 0 ∨ i = 1 ∨ i = 2 ∨ i = 3 ∨ i = 4 ∨ i = 5 := by omega
        rcases hi with rfl | rfl | rfl | rfl | rfl | rfl <;> decide⟩)
  refine ⟨hint, hreal, rfl, rfl, rfl, rfl, rfl, ?_⟩
  rw [(C10_mat_equality_ignores_dims int_ne heapTwoMats { mat := 1, ptr := HPtr.obj 1 }
    { mat := 2, ptr := HPtr.obj 2 }).1 fun _ => (6, 1)]
  exact hint

/-! ### Storage blocks -/

/-- A live block has an identifier below the number of blocks. -/
theorem blockCells_lt {α : Type} {mem : List (Option (List (Option α)))} {b : Nat}
    {cells : List (Option α)} (h : blockCells mem b = some cells) : b < mem.length := by
  unfold blockCells at h
  by_contra hlt
  rw [List.getElem?_eq_none (by omega)] at h
  simp at h

/-- Characterisation of a live block. -/
theorem blockCells_eq_some {α : Type} {mem : List (Option (List (Option α)))} {b : Nat}
    {cells : List (Option α)} : blockCells mem b = some cells ↔ mem[b]? = some (some cells) := by
  unfold blockCells
  constructor
  · intro h
    split at h
    · next c hc => simp at h; rw [hc, h]
    · simp at h
  · intro h
    simp [h]

/-- Blocks after one block was replaced. -/
theorem blockCells_set {α : Type} (mem : List (Option (List (Option α)))) (b c : Nat)
    (v : Option (List (Option α))) :
    blockCells (mem.set b v) c =
      if b = c then (if b < mem.length then v else none) else blockCells mem c := by
  unfold blockCells
  rw [List.getElem?_set]
  by_cases hbc : b = c
  · subst hbc
    by_cases hlt : b < mem.length
    · cases v <;> simp [hlt]
    · simp [hlt]
  · simp [hbc]

/-- Old blocks after an allocation. -/
theorem blockCells_append_left {α : Type} (mem extra : List (Option (List (Option α))))
    {b : Nat} (h : b < mem.length) : blockCells (mem ++ extra) b = blockCells mem b := by
  unfold blockCells
  rw [List.getElem?_append_left h]

/-- The block that was just allocated. -/
theorem blockCells_append_new {α : Type} (mem : List (Option (List (Option α))))
    (v : Option (List (Option α))) : blockCells (mem ++ [v]) mem.length = v := by
  unfold blockCells
  rw [List.getElem?_concat_length]
  cases v <;> rfl

/-- Reading the cell that was just written. -/
theorem loadCell_storeCell_same {α : Type} {mem mem1 : List (Option (List (Option α)))}
    {p : EPtr} {v : α} (h : storeCell mem p v = some mem1) : loadCell mem1 p = some v := by
  unfold storeCell at h
  split at h
  · next cells hc =>
    split at h
    · next hlt =>
      simp only [Option.some.injEq] at h
      subst h
      unfold loadCell
      rw [blockCells_set]
      simp [blockCells_lt hc, List.getElem?_set, hlt]
    · simp at h
  · simp at h

/-- Reading another cell after a write. -/
theorem loadCell_storeCell_ne {α : Type} {mem mem1 : List (Option (List (Option α)))}
    {p q : EPtr} {v : α} (h : storeCell mem p v = some mem1) (hne : q ≠ p) :
    loadCell mem1 q = loadCell mem q := by
  unfold storeCell at h
  split at h
  · next cells hc =>
    split at h
    · next hlt =>
      simp only [Option.some.injEq] at h
      subst h
      unfold loadCell
      rw [blockCells_set]
      by_cases hb : p.blk = q.blk
      · have hoff : p.off ≠ q.off := by
          intro ho
          apply hne
          cases p; cases q
          simp_all
        simp only [hb, if_true, blockCells_lt (hb ▸ hc)]
        rw [← hb, hc]
        simp [List.getElem?_set, hoff]
      · simp [hb]
    · simp at h
  · simp at h

/-- A write is possible exactly on a cell of a live block. -/
theorem storeCell_isSome {α : Type} (mem : List (Option (List (Option α)))) (p : EPtr) (v : α)
    {cells : List (Option α)} (hc : blockCells mem p.blk = some cells) (hlt : p.off < cells.length) :
    ∃ mem1, storeCell mem p v = some mem1 := by
  unfold storeCell
  simp [hc, hlt]

/-- Cells of other blocks after a block was freed. -/
theorem loadCell_freeBlock_ne {α : Type} {mem mem1 : List (Option (List (Option α)))}
    {p q : EPtr} (h : freeBlock mem p = some mem1) (hne : q.blk ≠ p.blk) :
    loadCell mem1 q = loadCell mem q := by
  unfold freeBlock at h
  split at h
  · split at h
    · simp only [Option.some.injEq] at h
      subst h
      unfold loadCell
      rw [blockCells_set]
      simp [Ne.symm hne]
    · simp at h
  · simp at h

/-! ### The list primitive `push_back` -/

/-- Growth of a full list keeps the slots below the size and touches nothing else. -/
theorem listGrow_spec {st st1 : Heap} {hd hd1 : igraph_vector_list_t}
    (h : listGrow st hd = some (st1, hd1)) :
    ∃ (n : Nat) (cells : List (Option igraph_vector_t)),
      hd.end_.blk = hd.stor_begin.blk ∧ hd.end_.off = hd.stor_begin.off + n ∧
      hd.stor_begin.off = 0 ∧
      blockCells st.slots hd.stor_begin.blk = some cells ∧
      hd1.stor_begin = ⟨st.slots.length, 0⟩ ∧ hd1.end_ = ⟨st.slots.length, n⟩ ∧
      hd1.end_ ≠ hd1.stor_end ∧
      st1.slots = st.slots.set hd.stor_begin.blk none ++
        [some (cells ++ List.replicate ((if n = 0 then 1 else 2 * n) - cells.length) none)] ∧
      st1.vecs = st.vecs ∧ st1.elems = st.elems ∧ st1.lists = st.lists ∧
      st1.mats = st.mats ∧ st1.trace = st.trace := by
  unfold listGrow at h
  split at h
  · next n cells sl hn hc hf =>
    split at h
    · simp at h
    · next hneg =>
      simp only [Option.some.injEq, Prod.mk.injEq] at h
      obtain ⟨h1, h2⟩ := h
      subst h1 h2
      unfold igraph_vector_list_t.size EPtr.diff at hn
      split at hn
      · next hb =>
        simp only [Option.some.injEq] at hn
        unfold freeBlock at hf
        rw [hc] at hf
        simp only at hf
        split at hf
        · next hoff =>
          simp only [Option.some.injEq] at hf
          subst hf
          refine ⟨n.toNat, cells, hb, by omega, hoff, hc, ?_, ?_, ?_, ?_, rfl, rfl, rfl, rfl, rfl⟩
          · simp
          · simp
          · simp only [ne_eq, EPtr.mk.injEq, true_and]
            split <;> omega
          · simp
        · simp at hf
      · simp at hn
  · simp at h

/-- A cell of a block that moved to a new, longer block reads as it did in the old block. -/
theorem loadCell_moved {α : Type} (mem : List (Option (List (Option α)))) (ob k i : Nat)
    {cells : List (Option α)} (hc : blockCells mem ob = some cells) :
    loadCell (mem.set ob none ++ [some (cells ++ List.replicate k none)]) ⟨mem.length, i⟩ =
      loadCell mem ⟨ob, i⟩ := by
  have hlen : (mem.set ob none).length = mem.length := List.length_set _ _ _
  unfold loadCell
  simp only
  rw [← hlen, blockCells_append_new, hc]
  simp only
  by_cases hi : i < cells.length
  · rw [List.getElem?_append_left hi]
  · rw [List.getElem?_append_right (by omega), List.getElem?_eq_none (l := cells) (by omega),
      List.getElem?_replicate]
    by_cases hk : i - cells.length < k <;> simp [hk]

/-- What `push_back(value_type &t)` does with an owning `t` when it completes: the list
handle has one more slot, the new last slot holds the handle `t` had embedded, `t` points to
that slot, the slots below keep their handles, and no vector object or element changes. -/
theorem igVecList.push_back_ref_spec {st st2 : Heap} {L : igVecList} {t t2 : igVec}
    (hown : t.ptr = HPtr.obj t.vec)
    (h : L.push_back_ref st t = some (st2, t2)) :
    ∃ (a : Nat) (hd hd2 : igraph_vector_list_t) (n : Nat) (item : igraph_vector_t),
      L.ptr = HPtr.obj a ∧ st.lists a = some hd ∧ st2.lists a = some hd2 ∧
      hd.end_.blk = hd.stor_begin.blk ∧ hd.end_.off = hd.stor_begin.off + n ∧
      hd2.end_.blk = hd2.stor_begin.blk ∧ hd2.end_.off = hd2.stor_begin.off + n + 1 ∧
      st.vecs t.vec = some item ∧
      t2 = { vec := t.vec, ptr := HPtr.slot ⟨hd2.stor_begin.blk, hd2.stor_begin.off + n⟩ } ∧
      loadCell st2.slots ⟨hd2.stor_begin.blk, hd2.stor_begin.off + n⟩ = some item ∧
      (∀ i, i < n → loadCell st2.slots ⟨hd2.stor_begin.blk, hd2.stor_begin.off + i⟩ =
        loadCell st.slots ⟨hd.stor_begin.blk, hd.stor_begin.off + i⟩) ∧
      st2.vecs = st.vecs ∧ st2.elems = st.elems ∧ st2.mats = st.mats ∧
      (∀ c, c ≠ a → st2.lists c = st.lists c) := by
  unfold igVecList.push_back_ref igCheck at h
  split at h
  · simp at h
  · next st1 hpb =>
    split at h
    · simp at h
    · next st2' q htp =>
      simp only [Option.some.injEq, Prod.mk.injEq] at h
      obtain ⟨h1, h2⟩ := h
      subst h1 h2
      unfold igraph_vector_list_push_back at hpb
      split at hpb
      · simp at hpb
      · next hd hdl =>
        split at hpb
        · simp at hpb
        · next stg hg hgrow =>
          split at hpb
          · simp at hpb
          · next item hitem =>
            split at hpb
            · simp at hpb
            · next sl hsl =>
              split at hpb
              · simp at hpb
              · next st1' hst =>
                simp only [Option.some.injEq] at hpb
                subst hpb
                -- the list pointer is the address of a list handle object
                obtain ⟨a, hLp⟩ : ∃ a, L.ptr = HPtr.obj a := by
                  cases hp : L.ptr with
                  | null => rw [hp] at hdl; simp [Heap.derefList] at hdl
                  | obj a => exact ⟨a, rfl⟩
                  | slot p => rw [hp] at hdl; simp [Heap.derefList] at hdl
                rw [hLp] at hdl hst htp
                simp only [Heap.derefList] at hdl
                simp only [Heap.storeList, Option.some.injEq] at hst
                subst hst
                rw [hown] at hitem
                simp only [Heap.derefVec] at hitem
                -- the tail pointer is the slot that was written
                unfold igraph_vector_list_tail_ptr at htp
                simp only [Heap.derefList, Heap.log, Function.update_same] at htp
                unfold igraph_vector_list_t.size EPtr.diff EPtr.add at htp
                simp only at htp
                split at htp
                · simp at htp
                · next n1 hn1 =>
                  split at hn1
                  · next hblk =>
                    simp only [Option.some.injEq] at hn1
                    split at htp
                    · simp at htp
                    · next hpos =>
                      split at htp
                      · simp at htp
                      · next q1 hq1 =>
                        simp only [Option.some.injEq, Prod.mk.injEq] at htp
                        obtain ⟨h1, h2⟩ := htp
                        subst h1 h2
                        split at hq1
                        · simp only [Option.some.injEq] at hq1
                          subst hq1
                          have hsz : hg.stor_begin.off ≤ hg.end_.off := by
                            push_cast at hn1
                            omega
                          by_cases hfull : hd.end_ = hd.stor_end
                          · rw [if_pos hfull] at hgrow
                            obtain ⟨n, cells, hb, hoff, h0, hc, hsb, hend, -, hslots, hv, he, hl, hm,
                              -⟩ := listGrow_spec hgrow
                            have hsl1 := loadCell_storeCell_same hsl
                            rw [hend] at hsl1 hsl
                            refine ⟨a, hd, { hg with end_ := ⟨hg.end_.blk, hg.end_.off + 1⟩ }, n, item, hLp, hdl,
                              by simp, hb, hoff, ?_, ?_, ?_, ?_, ?_,
                              ?_, hv, he, hm, ?_⟩
                            · simp [hend, hsb]
                            · simp [hend, hsb]
                            · rw [← hv]
                              exact hitem
                            · simp [hend, hsb]
                            · simp only [hsb, Nat.zero_add]
                              exact hsl1
                            · intro i hi
                              simp only [hsb, Nat.zero_add, h0]
                              rw [loadCell_storeCell_ne hsl (by simp; omega), hslots]
                              exact loadCell_moved st.slots hd.stor_begin.blk _ i hc
                            · intro c hca
                              simp [Function.update_noteq hca, hl]
                          · rw [if_neg hfull] at hgrow
                            simp only [Option.some.injEq, Prod.mk.injEq] at hgrow
                            obtain ⟨h1, h2⟩ := hgrow
                            subst h1 h2
                            have hend : hd.end_ = ⟨hd.stor_begin.blk,
                                hd.stor_begin.off + (hd.end_.off - hd.stor_begin.off)⟩ := by
                              cases he : hd.end_
                              rw [he] at hblk hsz
                              simp only [EPtr.mk.injEq] at *
                              exact ⟨hblk, by omega⟩
                            have hsl1 := loadCell_storeCell_same hsl
                            refine ⟨a, hd, { hd with end_ := ⟨hd.end_.blk, hd.end_.off + 1⟩ },
                              hd.end_.off - hd.stor_begin.off, item, hLp, hdl, by simp,
                              hblk, by omega, hblk, ?_, hitem, ?_, ?_, ?_, rfl, rfl, rfl, ?_⟩
                            · simp only
                              omega
                            · simp only [igVec.mk.injEq, HPtr.slot.injEq, EPtr.mk.injEq, true_and]
                              exact ⟨hblk, by omega⟩
                            · rw [← hend]
                              exact hsl1
                            · intro i hi
                              exact loadCell_storeCell_ne hsl (by
                                intro hc
                                rw [← hc] at hsz hi
                                simp at hi)
                            · intro c hca
                              simp [Function.update_noteq hca]
                        · simp at hq1
                  · simp at hn1

/-- Pointer arithmetic with offset zero. -/
theorem EPtr.add_zero (p : EPtr) : p.add 0 = some p := by
  simp [EPtr.add]

/-- Pointer arithmetic with a natural offset. -/
theorem EPtr.add_natCast (p : EPtr) (n : Nat) : p.add (n : Int) = some ⟨p.blk, p.off + n⟩ := by
  unfold EPtr.add
  have h : 0 ≤ (p.off : Int) + (n : Int) := by omega
  simp only [h, if_true, Option.some.injEq, EPtr.mk.injEq, true_and]
  omega

/-- C4: when `L.push_back(v)` (lvalue overload) completes for an owning `v`, the size of `L`
has grown by one, `v` is an alias whose pointer is the address of slot `L.size() - 1`, that
slot holds the handle `v` owned before the call, writing `v[0]` is possible whenever it was
possible before the call, and a value written through `v[0]` is the value read through
`L[L.size() - 1][0]`. -/
theorem C4_push_back_aliases_caller (st st2 : Heap) (L : igVecList) (v v2 : igVec)
    (hown : v.is_alias = false)
    (h : L.push_back_ref st v = some (st2, v2)) :
    ∃ (m : Int) (q : EPtr) (item : igraph_vector_t),
      L.size st2 = some m ∧ L.size st = some (m - 1) ∧
      v2.is_alias = true ∧ L.slot_addr st2 (m - 1) = some q ∧ v2.ptr = HPtr.slot q ∧
      st.derefVec v.ptr = some item ∧ st2.derefVec (HPtr.slot q) = some item ∧
      (∀ x, (v.index_assign st 0 x).isSome → (v2.index_assign st2 0 x).isSome) ∧
      (∀ x st3, v2.index_assign st2 0 x = some st3 →
        L.size st3 = some m ∧
        ∀ self, ∃ w, L.index st3 self (m - 1) = some w ∧ w.index st3 0 = some x) := by
  have hp : v.ptr = HPtr.obj v.vec := by
    simpa [igVec.is_alias] using hown
  obtain ⟨a, hd, hd2, n, item, hLp, hdl, hdl2, hb, hoff, hb2, hoff2, hitem, hv2, hslot, -, hvecs,
    helems, -, -⟩ := igVecList.push_back_ref_spec hp h
  have hsz2 : L.size st2 = some ((n : Int) + 1) := by
    simp only [igVecList.size, hLp, Heap.derefList, hdl2, EPtr.diff, hb2, if_true, hoff2]
    congr 1
    push_cast
    omega
  have hsz : L.size st = some ((n : Int) + 1 - 1) := by
    simp only [igVecList.size, hLp, Heap.derefList, hdl, EPtr.diff, hb, if_true, hoff]
    congr 1
    push_cast
    omega
  have haddr : ∀ s : Heap, s.lists = st2.lists →
      L.slot_addr s ((n : Int) + 1 - 1) = some ⟨hd2.stor_begin.blk, hd2.stor_begin.off + n⟩ := by
    intro s hs
    have : ((n : Int) + 1 - 1) = (n : Int) := by omega
    rw [this]
    simp only [igVecList.slot_addr, hLp, Heap.derefList, hs, hdl2]
    exact EPtr.add_natCast _ _
  refine ⟨(n : Int) + 1, ⟨hd2.stor_begin.blk, hd2.stor_begin.off + n⟩, item, hsz2, hsz, ?_,
    haddr st2 rfl, ?_, ?_, ?_, ?_, ?_⟩
  · rw [hv2]
    simp [igVec.is_alias]
  · rw [hv2]
  · rw [hp]
    exact hitem
  · exact hslot
  · intro x hx
    rw [hv2]
    simp only [igVec.index_assign, igVec.begin_, Heap.derefVec, hslot, helems]
    simp only [igVec.index_assign, igVec.begin_, hp, Heap.derefVec, hitem] at hx
    rw [EPtr.add_zero] at hx ⊢
    simp only at hx ⊢
    cases hst : storeCell st.elems item.stor_begin x with
    | none => rw [hst] at hx; simp at hx
    | some el => simp
  · intro x st3 hw
    rw [hv2] at hw
    simp only [igVec.index_assign, igVec.begin_, Heap.derefVec, hslot, EPtr.add_zero] at hw
    split at hw
    · simp at hw
    · next el hel =>
      simp only [Option.some.injEq] at hw
      subst hw
      refine ⟨?_, ?_⟩
      · rw [← hsz2]
        simp [igVecList.size, Heap.derefList]
      · intro self
        refine ⟨igVec.igVec_alias self
          (HPtr.slot ⟨hd2.stor_begin.blk, hd2.stor_begin.off + n⟩), ?_, ?_⟩
        · simp only [igVecList.index]
          rw [haddr { st2 with elems := el } rfl]
        · simp only [igVec.index, igVec.begin_, igVec.igVec_alias, Heap.derefVec, hslot,
            EPtr.add_zero]
          exact loadCell_storeCell_same hel

/-- Instance of C4: `LIST_TYPE L; igVec v(3); L.push_back(v); v[0] = 7;` makes `L.size()` one,
`v` an alias of slot 0, and `L[0][0]` reads 7. -/
theorem C4_push_back_aliases_caller_witness :
    igVecList.size pushedOnce.1 { list := 100, ptr := HPtr.obj 100 } = some 1 ∧
    pushedOnce.2.is_alias = true ∧
    ∃ st3, pushedOnce.2.index_assign pushedOnce.1 0 7 = some st3 ∧
      ∃ w, igVecList.index st3 { list := 100, ptr := HPtr.obj 100 } 300 0 = some w ∧
        w.index st3 0 = some 7 := by
  have hpb : igVecList.push_back_ref heapListAndVec { list := 100, ptr := HPtr.obj 100 }
      { vec := 200, ptr := HPtr.obj 200 } = some (pushedOnce.1, pushedOnce.2) := rfl
  obtain ⟨m, q, item, hm, -, hal, -, -, -, -, hw, hrd⟩ :=
    C4_push_back_aliases_caller heapListAndVec pushedOnce.1 { list := 100, ptr := HPtr.obj 100 }
      { vec := 200, ptr := HPtr.obj 200 } pushedOnce.2 rfl hpb
  have hm1 : m = 1 := by
    have h1 : igVecList.size pushedOnce.1 { list := 100, ptr := HPtr.obj 100 } = some 1 := rfl
    rw [hm] at h1
    exact Option.some.inj h1
  subst hm1
  refine ⟨hm, hal, ?_⟩
  obtain ⟨st3, hst3⟩ := Option.isSome_iff_exists.mp (hw 7 rfl)
  refine ⟨st3, hst3, ?_⟩
  obtain ⟨w, hw1, hw2⟩ := (hrd 7 st3 hst3).2 300
  exact ⟨w, hw1, hw2⟩

/-- C3, evaluated: inserting a wrapper that is already an alias puts one live buffer into two
slots of the list. After `L.set(0, v); L.set(1, v);`, after `L.push_back(v); L.push_back(v);`
on a list with room for two, and after `L.push_back(L[0])`, the slots 0 and 1 of `L` hold
handles of the same live buffer, `L.size()` is 2, and the destructor of `L` has no defined
result because it releases that buffer twice. -/
theorem C3_alias_insertion_shares_buffer :
    (∃ st v, setTwice = some (st, v) ∧
      igVecList.size st { list := 100, ptr := HPtr.obj 100 } = some 2 ∧
      sharesBuffer st ⟨0, 0⟩ ⟨0, 1⟩ = true ∧
      igVecList.destructor st { list := 100, ptr := HPtr.obj 100 } = none) ∧
    (∃ st v, pushTwice = some (st, v) ∧
      igVecList.size st { list := 100, ptr := HPtr.obj 100 } = some 2 ∧
      sharesBuffer st ⟨0, 0⟩ ⟨0, 1⟩ = true ∧
      igVecList.destructor st { list := 100, ptr := HPtr.obj 100 } = none) ∧
    (∃ st v, pushIndexed = some (st, v) ∧
      igVecList.size st { list := 100, ptr := HPtr.obj 100 } = some 2 ∧
      sharesBuffer st ⟨0, 0⟩ ⟨0, 1⟩ = true ∧
      igVecList.destructor st { list := 100, ptr := HPtr.obj 100 } = none) :=
  ⟨⟨_, _, rfl, rfl, rfl, rfl⟩, ⟨_, _, rfl, rfl, rfl, rfl⟩, ⟨_, _, rfl, rfl, rfl, rfl⟩⟩

/-- C9, evaluated: the move constructor of `src/vec_pmt.hpp` applied to `igVec(igAlias(h))`
for the handle `h` of `igVec v(3)` at address 1. The new object is not an alias: its pointer
is its own embedded field, which received the uninitialised embedded field of the source, so
it cannot read the contents of `h` and its destructor runs `destroy` on that field. The move
constructor of `src/include/vec_pmt.hpp` gives an alias of `h` of size 3 whose destructor
leaves the heap alone. In general the constructor of `src/vec_pmt.hpp` never yields an alias,
and the two constructors agree on every owning source. -/
theorem C9_move_from_alias_disagrees :
    (SrcVecPmt.igVec.igVec_move heapVec3 3 (SrcVecPmt.igVec.igVec_alias 2 (HPtr.obj 1))).2.1 =
      { vec := 3, ptr := HPtr.obj 3 } ∧
    (SrcVecPmt.igVec.igVec_move heapVec3 3
      (SrcVecPmt.igVec.igVec_alias 2 (HPtr.obj 1))).2.1.is_alias = false ∧
    SrcVecPmt.igVec.size
      (SrcVecPmt.igVec.igVec_move heapVec3 3 (SrcVecPmt.igVec.igVec_alias 2 (HPtr.obj 1))).1
      (SrcVecPmt.igVec.igVec_move heapVec3 3 (SrcVecPmt.igVec.igVec_alias 2 (HPtr.obj 1))).2.1 =
        none ∧
    SrcVecPmt.igVec.destructor
      (SrcVecPmt.igVec.igVec_move heapVec3 3 (SrcVecPmt.igVec.igVec_alias 2 (HPtr.obj 1))).1
      (SrcVecPmt.igVec.igVec_move heapVec3 3 (SrcVecPmt.igVec.igVec_alias 2 (HPtr.obj 1))).2.1 =
        igraph_vector_destroy
          (SrcVecPmt.igVec.igVec_move heapVec3 3
            (SrcVecPmt.igVec.igVec_alias 2 (HPtr.obj 1))).1 (HPtr.obj 3) ∧
    (igVec.igVec_move heapVec3 3 (igVec.igVec_alias 2 (HPtr.obj 1))).2.1 =
      { vec := 3, ptr := HPtr.obj 1 } ∧
    (igVec.igVec_move heapVec3 3 (igVec.igVec_alias 2 (HPtr.obj 1))).2.1.is_alias = true ∧
    igVec.size (igVec.igVec_move heapVec3 3 (igVec.igVec_alias 2 (HPtr.obj 1))).1
      (igVec.igVec_move heapVec3 3 (igVec.igVec_alias 2 (HPtr.obj 1))).2.1 = some 3 ∧
    igVec.destructor (igVec.igVec_move heapVec3 3 (igVec.igVec_alias 2 (HPtr.obj 1))).1
      (igVec.igVec_move heapVec3 3 (igVec.igVec_alias 2 (HPtr.obj 1))).2.1 = some heapVec3 ∧
    (∀ (st : Heap) (self : Nat) (other : SrcVecPmt.igVec),
      (SrcVecPmt.igVec.igVec_move st self other).2.1.is_alias = false) ∧
    (∀ (st : Heap) (self addr : Nat),
      (SrcVecPmt.igVec.igVec_move st self { vec := addr, ptr := HPtr.obj addr }).1.vecs =
        (igVec.igVec_move st self { vec := addr, ptr := HPtr.obj addr }).1.vecs ∧
      (SrcVecPmt.igVec.igVec_move st self { vec := addr, ptr := HPtr.obj addr }).2.1.ptr =
        (igVec.igVec_move st self { vec := addr, ptr := HPtr.obj addr }).2.1.ptr ∧
      (SrcVecPmt.igVec.igVec_move st self { vec := addr, ptr := HPtr.obj addr }).2.2.ptr =
        (igVec.igVec_move st self { vec := addr, ptr := HPtr.obj addr }).2.2.ptr) :=
  ⟨rfl, rfl, rfl, rfl, rfl, rfl, rfl, rfl,
    fun _ _ _ => by simp [SrcVecPmt.igVec.igVec_move, SrcVecPmt.igVec.is_alias],
    fun _ _ _ => by simp [SrcVecPmt.igVec.igVec_move, igVec.igVec_move, igVec.is_alias]⟩

/-! ### Move assignment -/

/-- Freeing a block leaves the cells of the other blocks readable as before (element blocks
addressed through `EPtr.add`). -/
theorem loadCell_add_freeBlock_ne {mem mem1 : List (Option (List (Option Int)))}
    {p b : EPtr} (h : freeBlock mem p = some mem1) (hne : b.blk ≠ p.blk) (i : Int) :
    (match b.add i with
      | none => none
      | some q => loadCell mem1 q) =
    (match b.add i with
      | none => none
      | some q => loadCell mem q) := by
  unfold EPtr.add
  by_cases h0 : 0 ≤ (b.off : Int) + i
  · simp only [h0, if_true]
    exact loadCell_freeBlock_ne h hne
  · simp only [h0, if_false]

/-- Move assignment of `igVec`: the destination reads what the source read, provided the
buffer the destination destroys is not the buffer the source views. -/
theorem igVec.assign_move_spec (st st1 : Heap) (a b a1 b1 : igVec)
    (hsep : ∀ ha hb, b.is_alias = false → st.derefVec a.ptr = some ha →
      st.derefVec b.ptr = some hb → ha.stor_begin.blk ≠ hb.stor_begin.blk)
    (h : b.assign_move st a = some (st1, b1, a1)) :
    b1.size st1 = a.size st ∧ b1.empty st1 = a.empty st ∧
    (∀ i, b1.index st1 i = a.index st i) ∧
    a1 = { vec := a.vec, ptr := HPtr.null } ∧ a1.size st1 = none ∧ a1.empty st1 = none := by
  unfold igVec.assign_move at h
  split at h
  · simp at h
  · next st0 hd =>
    -- the heap after the conditional destroy reads like the old one through `a`
    have hview : st0.derefVec a.ptr = st.derefVec a.ptr ∧ st0.vecs = st.vecs ∧
        ∀ ha, st.derefVec a.ptr = some ha → ∀ i,
          (match ha.stor_begin.add i with
            | none => none
            | some q => loadCell st0.elems q) =
          (match ha.stor_begin.add i with
            | none => none
            | some q => loadCell st.elems q) := by
      by_cases hb : b.is_alias = true
      · simp only [hb, Bool.not_true, Bool.false_eq_true, if_false, Option.some.injEq] at hd
        subst hd
        exact ⟨rfl, rfl, fun _ _ _ => rfl⟩
      · simp only [Bool.not_eq_true] at hb
        simp only [hb, Bool.not_false, if_true] at hd
        unfold igraph_vector_destroy at hd
        split at hd
        · simp at hd
        · next hbh hbd =>
          split at hd
          · simp at hd
          · next el hfree =>
            simp only [Option.some.injEq] at hd
            subst hd
            refine ⟨?_, rfl, ?_⟩
            · cases a.ptr <;> rfl
            · intro ha hha i
              exact loadCell_add_freeBlock_ne hfree (hsep ha hbh hb hha hbd) i
    obtain ⟨hderef, hvecs, helems⟩ := hview
    by_cases ha : a.is_alias = true
    · simp only [ha, if_true, Option.some.injEq, Prod.mk.injEq] at h
      obtain ⟨h1, h2, h3⟩ := h
      subst h1 h2 h3
      refine ⟨?_, ?_, ?_, rfl, rfl, rfl⟩
      · simp only [igVec.size, hderef]
      · simp only [igVec.empty, hderef]
      · intro i
        simp only [igVec.index, igVec.begin_, hderef]
        cases hh : st.derefVec a.ptr with
        | none => rfl
        | some hav => exact helems hav hh i
    · simp only [Bool.not_eq_true] at ha
      have hp : a.ptr = HPtr.obj a.vec := by
        simpa [igVec.is_alias] using ha
      simp only [ha, Bool.false_eq_true, if_false, Option.some.injEq, Prod.mk.injEq] at h
      obtain ⟨h1, h2, h3⟩ := h
      subst h1 h2 h3
      rw [hp] at hderef helems
      simp only [Heap.derefVec] at hderef helems
      refine ⟨?_, ?_, ?_, rfl, rfl, rfl⟩
      · simp only [igVec.size, Heap.derefVec, Function.update_same, hp, hderef]
      · simp only [igVec.empty, Heap.derefVec, Function.update_same, hp, hderef]
      · intro i
        simp only [igVec.index, igVec.begin_, Heap.derefVec, Function.update_same, hp, hderef]
        cases hh : st.vecs a.vec with
        | none => rfl
        | some hav => exact helems hav hh i

/-- Move assignment of `igMat`: the destination reads what the source read, provided the
buffer the destination destroys is not the buffer the source views. -/
theorem igMat.mat_assign_move_spec (st st1 : Heap) (a b a1 b1 : igMat)
    (hsep : ∀ ha hb, b.is_alias = false → st.derefMat a.ptr = some ha →
      st.derefMat b.ptr = some hb → ha.data.stor_begin.blk ≠ hb.data.stor_begin.blk)
    (h : b.assign_move st a = some (st1, b1, a1)) :
    b1.size st1 = a.size st ∧ b1.empty st1 = a.empty st ∧
    (∀ i, b1.index st1 i = a.index st i) ∧
    a1 = { mat := a.mat, ptr := HPtr.null } ∧ a1.size st1 = none ∧ a1.empty st1 = none := by
  unfold igMat.assign_move at h
  split at h
  · simp at h
  · next st0 hd =>
    have hview : st0.derefMat a.ptr = st.derefMat a.ptr ∧ st0.mats = st.mats ∧
        ∀ ha, st.derefMat a.ptr = some ha → ∀ i,
          (match ha.data.stor_begin.add i with
            | none => none
            | some q => loadCell st0.elems q) =
          (match ha.data.stor_begin.add i with
            | none => none
            | some q => loadCell st.elems q) := by
      by_cases hb : b.is_alias = true
      · simp only [hb, Bool.not_true, Bool.false_eq_true, if_false, Option.some.injEq] at hd
        subst hd
        exact ⟨rfl, rfl, fun _ _ _ => rfl⟩
      · simp only [Bool.not_eq_true] at hb
        simp only [hb, Bool.not_false, if_true] at hd
        unfold igraph_matrix_destroy at hd
        split at hd
        · simp at hd
        · next hbh hbd =>
          split at hd
          · simp at hd
          · next el hfree =>
            simp only [Option.some.injEq] at hd
            subst hd
            refine ⟨?_, rfl, ?_⟩
            · cases a.ptr <;> rfl
            · intro ha hha i
              exact loadCell_add_freeBlock_ne hfree (hsep ha hbh hb hha hbd) i
    obtain ⟨hderef, hmats, helems⟩ := hview
    by_cases ha : a.is_alias = true
    · simp only [ha, if_true, Option.some.injEq, Prod.mk.injEq] at h
      obtain ⟨h1, h2, h3⟩ := h
      subst h1 h2 h3
      refine ⟨?_, ?_, ?_, rfl, rfl, rfl⟩
      · simp only [igMat.size, hderef]
      · simp only [igMat.empty, hderef]
      · intro i
        simp only [igMat.index, igMat.begin_, hderef]
        cases hh : st.derefMat a.ptr with
        | none => rfl
        | some hav => exact helems hav hh i
    · simp only [Bool.not_eq_true] at ha
      have hp : a.ptr = HPtr.obj a.mat := by
        simpa [igMat.is_alias] using ha
      simp only [ha, Bool.false_eq_true, if_false, Option.some.injEq, Prod.mk.injEq] at h
      obtain ⟨h1, h2, h3⟩ := h
      subst h1 h2 h3
      rw [hp] at hderef helems
      simp only [Heap.derefMat] at hderef helems
      refine ⟨?_, ?_, ?_, rfl, rfl, rfl⟩
      · simp only [igMat.size, Heap.derefMat, Function.update_same, hp, hderef]
      · simp only [igMat.empty, Heap.derefMat, Function.update_same, hp, hderef]
      · intro i
        simp only [igMat.index, igMat.begin_, Heap.derefMat, Function.update_same, hp, hderef]
        cases hh : st.mats a.mat with
        | none => rfl
        | some hav => exact helems hav hh i

/-- C6 as stated fails: after `b = std::move(a)` on the two owning vectors `a` (at address 1)
and `b` (at address 3) the pointer of `a` is null, so `a.size()` and `a.empty()` have no
result instead of 0 and `true`; the same holds for two owning matrices. And when `a` is an
alias of the handle `b` owns, `b` destroys the buffer `a` viewed and reads nothing where `a`
read 0. -/
theorem C6_moved_from_source_has_no_size :
    (∃ st1 b1 a1,
      igVec.assign_move heapTwoVecs { vec := 3, ptr := HPtr.obj 3 }
        { vec := 1, ptr := HPtr.obj 1 } = some (st1, b1, a1) ∧
      a1.ptr = HPtr.null ∧ a1.size st1 = none ∧ a1.size st1 ≠ some 0 ∧
      a1.empty st1 = none ∧ a1.empty st1 ≠ some true) ∧
    (∃ st1 b1 a1,
      igMat.assign_move heapTwoMats { mat := 2, ptr := HPtr.obj 2 }
        { mat := 1, ptr := HPtr.obj 1 } = some (st1, b1, a1) ∧
      a1.ptr = HPtr.null ∧ a1.size st1 = none ∧ a1.size st1 ≠ some 0 ∧
      a1.empty st1 = none ∧ a1.empty st1 ≠ some true) ∧
    (∃ st1 b1 a1,
      igVec.assign_move heapTwoVecs { vec := 3, ptr := HPtr.obj 3 }
        (igVec.igVec_alias 4 (HPtr.obj 3)) = some (st1, b1, a1) ∧
      igVec.index heapTwoVecs (igVec.igVec_alias 4 (HPtr.obj 3)) 0 = some 0 ∧
      b1.index st1 0 = none) :=
  ⟨⟨_, _, _, rfl, rfl, rfl, by decide, rfl, by decide⟩,
    ⟨_, _, _, rfl, rfl, rfl, by decide, rfl, by decide⟩,
    ⟨_, _, _, rfl, rfl, rfl⟩⟩

/-- C6, amended: for two distinct `igVec` (or `igMat`) wrappers `a` and `b` with `a` not
moved-from, where the buffer `b` owns is not the buffer `a` views, a completed move assignment
`b = std::move(a)` leaves `b` with the size, the emptiness and every element `a` had before,
and leaves `a` with a null pointer, on which `size()` and `empty()` have no result. The
assignment completes whenever `b` is not owning or the `destroy` of `b`'s buffer does. -/
theorem C6_move_assignment :
    (∀ (st st1 : Heap) (a b a1 b1 : igVec), a.vec ≠ b.vec → a.ptr ≠ HPtr.null →
      (∀ ha hb, b.is_alias = false → st.derefVec a.ptr = some ha →
        st.derefVec b.ptr = some hb → ha.stor_begin.blk ≠ hb.stor_begin.blk) →
      b.assign_move st a = some (st1, b1, a1) →
      b1.size st1 = a.size st ∧ b1.empty st1 = a.empty st ∧
      (∀ i, b1.index st1 i = a.index st i) ∧
      a1 = { vec := a.vec, ptr := HPtr.null } ∧ a1.size st1 = none ∧ a1.empty st1 = none) ∧
    (∀ (st : Heap) (a b : igVec),
      (b.is_alias = true ∨ (igraph_vector_destroy st b.ptr).isSome) →
      (b.assign_move st a).isSome) ∧
    (∀ (st st1 : Heap) (a b a1 b1 : igMat), a.mat ≠ b.mat → a.ptr ≠ HPtr.null →
      (∀ ha hb, b.is_alias = false → st.derefMat a.ptr = some ha →
        st.derefMat b.ptr = some hb → ha.data.stor_begin.blk ≠ hb.data.stor_begin.blk) →
      b.assign_move st a = some (st1, b1, a1) →
      b1.size st1 = a.size st ∧ b1.empty st1 = a.empty st ∧
      (∀ i, b1.index st1 i = a.index st i) ∧
      a1 = { mat := a.mat, ptr := HPtr.null } ∧ a1.size st1 = none ∧ a1.empty st1 = none) ∧
    (∀ (st : Heap) (a b : igMat),
      (b.is_alias = true ∨ (igraph_matrix_destroy st b.ptr).isSome) →
      (b.assign_move st a).isSome) := by
  refine ⟨?_, ?_, ?_, ?_⟩
  · intro st st1 a b a1 b1 _ _ hsep h
    exact igVec.assign_move_spec st st1 a b a1 b1 hsep h
  · intro st a b hb
    unfold igVec.assign_move
    by_cases hal : b.is_alias = true
    · simp only [hal, Bool.not_true, Bool.false_eq_true, if_false]
      split <;> rfl
    · simp only [Bool.not_eq_true] at hal
      rcases hb with hb | hb
      · rw [hal] at hb
        exact absurd hb (by decide)
      · obtain ⟨s, hs⟩ := Option.isSome_iff_exists.mp hb
        simp only [hal, Bool.not_false, if_true, hs]
        split <;> rfl
  · intro st st1 a b a1 b1 _ _ hsep h
    exact igMat.mat_assign_move_spec st st1 a b a1 b1 hsep h
  · intro st a b hb
    unfold igMat.assign_move
    by_cases hal : b.is_alias = true
    · simp only [hal, Bool.not_true, Bool.false_eq_true, if_false]
      split <;> rfl
    · simp only [Bool.not_eq_true] at hal
      rcases hb with hb | hb
      · rw [hal] at hb
        exact absurd hb (by decide)
      · obtain ⟨s, hs⟩ := Option.isSome_iff_exists.mp hb
        simp only [hal, Bool.not_false, if_true, hs]
        split <;> rfl

/-- Instance of C6 (amended): `b = std::move(a)` for the owning vectors `a` = 5, 0 and
`b` = 0, 0, 0 gives `b` the size 2 and the elements 5, 0 and leaves `a` without a size; the
2 x 3 matrix moved into the 3 x 2 matrix keeps its six elements. -/
theorem C6_move_assignment_witness :
    (∃ st1 b1 a1,
      igVec.assign_move heapTwoVecs { vec := 3, ptr := HPtr.obj 3 }
        { vec := 1, ptr := HPtr.obj 1 } = some (st1, b1, a1) ∧
      b1.size st1 = some 2 ∧ b1.index st1 0 = some 5 ∧ b1.index st1 1 = some 0 ∧
      a1.size st1 = none) ∧
    (∃ st1 b1 a1,
      igMat.assign_move heapTwoMats { mat := 2, ptr := HPtr.obj 2 }
        { mat := 1, ptr := HPtr.obj 1 } = some (st1, b1, a1) ∧
      b1.size st1 = some 6 ∧ b1.index st1 5 = some 6 ∧ a1.size st1 = none) := by
  constructor
  · obtain ⟨⟨st1, b1, a1⟩, hr⟩ := Option.isSome_iff_exists.mp
      (C6_move_assignment.2.1 heapTwoVecs { vec := 1, ptr := HPtr.obj 1 }
        { vec := 3, ptr := HPtr.obj 3 } (Or.inr rfl))
    obtain ⟨hs, -, hi, -, ha, -⟩ := C6_move_assignment.1 heapTwoVecs st1
      { vec := 1, ptr := HPtr.obj 1 } { vec := 3, ptr := HPtr.obj 3 } a1 b1 (by decide)
      (by decide)
      (fun ha hb _ h1 h2 => by
        have e1 : ha = ⟨⟨0, 0⟩, ⟨0, 2⟩, ⟨0, 2⟩⟩ := (Option.some.inj h1).symm
        have e2 : hb = ⟨⟨2, 0⟩, ⟨2, 3⟩, ⟨2, 3⟩⟩ := (Option.some.inj h2).symm
        rw [e1, e2]
        decide) hr
    exact ⟨st1, b1, a1, hr, hs.trans rfl, (hi 0).trans rfl, (hi 1).trans rfl, ha⟩
  · obtain ⟨⟨st1, b1, a1⟩, hr⟩ := Option.isSome_iff_exists.mp
      (C6_move_assignment.2.2.2 heapTwoMats { mat := 1, ptr := HPtr.obj 1 }
        { mat := 2, ptr := HPtr.obj 2 } (Or.inr rfl))
    obtain ⟨hs, -, hi, -, ha, -⟩ := C6_move_assignment.2.2.1 heapTwoMats st1
      { mat := 1, ptr := HPtr.obj 1 } { mat := 2, ptr := HPtr.obj 2 } a1 b1 (by decide)
      (by decide)
      (fun ha hb _ h1 h2 => by
        have e1 : ha = ⟨⟨⟨0, 0⟩, ⟨0, 6⟩, ⟨0, 6⟩⟩, 2, 3⟩ := (Option.some.inj h1).symm
        have e2 : hb = ⟨⟨⟨1, 0⟩, ⟨1, 6⟩, ⟨1, 6⟩⟩, 3, 2⟩ := (Option.some.inj h2).symm
        rw [e1, e2]
        decide) hr
    exact ⟨st1, b1, a1, hr, hs.trans rfl, (hi 5).trans rfl, ha⟩

/-! ### Copy construction and copy assignment -/

/-- Reading a handle through the pointer it was just stored through. -/
theorem Heap.derefVec_storeVec_same {st st1 : Heap} {p : HPtr} {h : igraph_vector_t}
    (hs : st.storeVec p h = some st1) : st1.derefVec p = some h := by
  cases p with
  | null => simp [Heap.storeVec] at hs
  | obj a =>
    simp only [Heap.storeVec, Option.some.injEq] at hs
    subst hs
    simp [Heap.derefVec]
  | slot q =>
    simp only [Heap.storeVec] at hs
    split at hs
    · next sl hsl =>
      simp only [Option.some.injEq] at hs
      subst hs
      exact loadCell_storeCell_same hsl
    · simp at hs

/-- Reading a handle through another pointer after a store. -/
theorem Heap.derefVec_storeVec_ne {st st1 : Heap} {p r : HPtr} {h : igraph_vector_t}
    (hs : st.storeVec p h = some st1) (hne : r ≠ p) : st1.derefVec r = st.derefVec r := by
  cases p with
  | null => simp [Heap.storeVec] at hs
  | obj a =>
    simp only [Heap.storeVec, Option.some.injEq] at hs
    subst hs
    cases r with
    | null => rfl
    | obj c =>
      have hca : c ≠ a := fun hc => hne (by rw [hc])
      simp [Heap.derefVec, Function.update_noteq hca]
    | slot q => rfl
  | slot q =>
    simp only [Heap.storeVec] at hs
    split at hs
    · next sl hsl =>
      simp only [Option.some.injEq] at hs
      subst hs
      cases r with
      | null => rfl
      | obj c => rfl
      | slot q2 =>
        have hq : q2 ≠ q := fun hc => hne (by rw [hc])
        exact loadCell_storeCell_ne hsl hq
    · simp at hs

/-- A store of a handle leaves the element blocks alone. -/
theorem Heap.storeVec_elems {st st1 : Heap} {p : HPtr} {h : igraph_vector_t}
    (hs : st.storeVec p h = some st1) : st1.elems = st.elems := by
  cases p with
  | null => simp [Heap.storeVec] at hs
  | obj a =>
    simp only [Heap.storeVec, Option.some.injEq] at hs
    subst hs
    rfl
  | slot q =>
    simp only [Heap.storeVec] at hs
    split at hs
    · simp only [Option.some.injEq] at hs
      subst hs
      rfl
    · simp at hs

/-- A readable cell lies in a live block. -/
theorem loadCell_live {α : Type} {mem : List (Option (List (Option α)))} {p : EPtr} {v : α}
    (h : loadCell mem p = some v) : ∃ cells, blockCells mem p.blk = some cells := by
  unfold loadCell at h
  split at h
  · next cells hc => exact ⟨cells, hc⟩
  · simp at h

/-- What the `memcpy` of the runtime does when it completes. -/
theorem copyCells_spec {el el1 : List (Option (List (Option Int)))} {d s : EPtr} {n : Nat}
    (h : copyCells el d s n = some el1) :
    (∃ sc, blockCells el s.blk = some sc ∧ s.off + n ≤ sc.length) ∧
    (∃ dc, blockCells el1 d.blk = some dc ∧ d.off + n ≤ dc.length) ∧
    (∀ q : EPtr, q.blk ≠ d.blk → loadCell el1 q = loadCell el q) ∧
    (∀ i, i < n → loadCell el1 ⟨d.blk, d.off + i⟩ = loadCell el ⟨s.blk, s.off + i⟩) := by
  unfold copyCells at h
  split at h
  · simp at h
  · next sc hsc =>
    split at h
    · next hsn =>
      split at h
      · simp at h
      · next dc hdc =>
        split at h
        · next hdn =>
          simp only [Option.some.injEq] at h
          subst h
          have hdlt := blockCells_lt hdc
          refine ⟨⟨sc, hsc, hsn⟩,
            ⟨dc.take d.off ++ (sc.drop s.off).take n ++ dc.drop (d.off + n), ?_, ?_⟩, ?_, ?_⟩
          · rw [blockCells_set]
            simp [hdlt]
          · simp only [List.length_append, List.length_take, List.length_drop]
            omega
          · intro q hq
            unfold loadCell
            rw [blockCells_set]
            simp [Ne.symm hq]
          · intro i hi
            unfold loadCell
            rw [blockCells_set]
            simp only [if_true, hdlt, hsc]
            have h1 : (List.take d.off dc).length = d.off := by
              rw [List.length_take]
              omega
            have h2 : (List.take n (List.drop s.off sc)).length = n := by
              rw [List.length_take, List.length_drop]
              omega
            rw [List.append_assoc, List.getElem?_append_right (by omega), h1,
              List.getElem?_append_left (by omega), List.getElem?_take_of_lt (by omega),
              List.getElem?_drop]
            have : d.off + i - d.off = i := by omega
            rw [this]
        · simp at h
    · simp at h


/-- Old blocks read the same after an allocation. -/
theorem loadCell_append_left {α : Type} (mem extra : List (Option (List (Option α))))
    {q : EPtr} (h : q.blk < mem.length) : loadCell (mem ++ extra) q = loadCell mem q := by
  unfold loadCell
  rw [blockCells_append_left mem extra h]

/-- Reading handles does not depend on the element blocks or the trace. -/
theorem Heap.derefVec_congr {st st1 : Heap} (hv : st1.vecs = st.vecs)
    (hs : st1.slots = st.slots) (p : HPtr) : st1.derefVec p = st.derefVec p := by
  cases p with
  | null => rfl
  | obj a => simp [Heap.derefVec, hv]
  | slot q => simp [Heap.derefVec, hs]

/-- What `resize` does when it completes: the handle behind `p` has `n` live cells in its old
block or in a block that did not exist before, other handles and other old blocks are as
they were. -/
theorem igraph_vector_resize_spec {st st1 : Heap} {p : HPtr} {n : Nat}
    (h : igraph_vector_resize st p n = some st1) :
    ∃ hd hd1, st.derefVec p = some hd ∧ st1.derefVec p = some hd1 ∧
      (∀ r, r ≠ p → st1.derefVec r = st.derefVec r) ∧
      hd1.end_ = ⟨hd1.stor_begin.blk, hd1.stor_begin.off + n⟩ ∧
      (hd1.stor_begin.blk = hd.stor_begin.blk ∨ hd1.stor_begin.blk = st.elems.length) ∧
      (∀ q : EPtr, q.blk ≠ hd.stor_begin.blk → q.blk < st.elems.length →
        loadCell st1.elems q = loadCell st.elems q) := by
  unfold igraph_vector_resize at h
  split at h
  · simp at h
  · next hd hhd =>
    split at h
    · simp at h
    · next cap hcap =>
      split at h
      · exact ⟨hd, _, hhd, Heap.derefVec_storeVec_same h,
          fun r hr => Heap.derefVec_storeVec_ne h hr, rfl, Or.inl rfl,
          fun q _ _ => by rw [Heap.storeVec_elems h]⟩
      · split at h
        · next cells el hcells hfree =>
          have hel : el = st.elems.set hd.stor_begin.blk none := by
            unfold freeBlock at hfree
            rw [hcells] at hfree
            simp only at hfree
            split at hfree
            · exact (Option.some.inj hfree).symm
            · simp at hfree
          have hlen : el.length = st.elems.length := by
            rw [hel, List.length_set]
          refine ⟨hd, _, hhd, Heap.derefVec_storeVec_same h, ?_, by simp, Or.inr hlen, ?_⟩
          · intro r hr
            rw [Heap.derefVec_storeVec_ne h hr]
            exact Heap.derefVec_congr rfl rfl r
          · intro q hq hlt
            rw [Heap.storeVec_elems h]
            simp only
            rw [loadCell_append_left _ _ (by omega)]
            exact loadCell_freeBlock_ne hfree hq
        · simp at h

/-- What `update(dst, src)` does when it completes for a readable source whose buffer is not
the buffer of the destination. -/
theorem igraph_vector_update_spec {st st1 : Heap} {dst src : HPtr} {hs : igraph_vector_t}
    (h : igraph_vector_update st dst src = some st1) (hne : src ≠ dst)
    (hs0 : st.derefVec src = some hs) (hlive : hs.stor_begin.blk < st.elems.length)
    (hsep : ∀ hd, st.derefVec dst = some hd → hs.stor_begin.blk ≠ hd.stor_begin.blk) :
    ∃ (n : Nat), hs.size = some (n : Int) ∧ CopyPost st st1 src dst hs n := by
  unfold igraph_vector_update at h
  rw [hs0] at h
  simp only at h
  split at h
  · simp at h
  · next m hm =>
    split at h
    · simp at h
    · next hm0 =>
      split at h
      · simp at h
      · next st0 hres =>
        obtain ⟨hd, hd1, hhd, hhd1, hother, hend, hblk, hframe⟩ := igraph_vector_resize_spec hres
        have hsrc : st0.derefVec src = some hs := by
          rw [hother src hne]
          exact hs0
        rw [hhd1, hsrc] at h
        simp only at h
        split at h
        · simp at h
        · next el hcopy =>
          simp only [Option.some.injEq] at h
          subst h
          obtain ⟨-, ⟨dc, hdc, hdn⟩, hcframe, hcopied⟩ := copyCells_spec hcopy
          have hdist : hd1.stor_begin.blk ≠ hs.stor_begin.blk := by
            rcases hblk with hb | hb
            · rw [hb]
              exact Ne.symm (hsep hd hhd)
            · omega
          refine ⟨m.toNat, ?_, ?_⟩
          · rw [hm]
            congr 1
            omega
          · refine ⟨hs0, (Heap.derefVec_congr rfl rfl src).trans hsrc, hd1,
              (Heap.derefVec_congr rfl rfl dst).trans hhd1, hdist, hend, ?_, ?_, ⟨dc, hdc, hdn⟩⟩
            · intro q hq
              have hq1 : q.blk ≠ hd1.stor_begin.blk := by
                rw [hq]
                exact Ne.symm hdist
              have hq2 : q.blk ≠ hd.stor_begin.blk := by
                rw [hq]
                exact hsep hd hhd
              simp only [Heap.log]
              rw [hcframe q hq1]
              exact hframe q hq2 (by rw [hq]; exact hlive)
            · intro i hi
              simp only [Heap.log]
              rw [hcopied i hi]
              exact hframe _ (hsep hd hhd) hlive


/-- What `init_copy(&vec, src)` does when it completes for a new object at address `self`
that is not the handle behind `src`. -/
theorem igraph_vector_init_copy_spec {st st1 : Heap} {self : Nat} {src : HPtr}
    {hs : igraph_vector_t}
    (h : igraph_vector_init_copy st (HPtr.obj self) src = some st1)
    (hne : src ≠ HPtr.obj self) (hs0 : st.derefVec src = some hs) :
    ∃ (n : Nat), hs.size = some (n : Int) ∧ CopyPost st st1 src (HPtr.obj self) hs n := by
  unfold igraph_vector_init_copy at h
  rw [hs0] at h
  simp only at h
  split at h
  · next m cells hm hcells =>
    split at h
    · next hcond =>
      simp only [Heap.storeVec, Option.some.injEq] at h
      subst h
      have hlt := blockCells_lt hcells
      refine ⟨m.toNat, ?_, hs0, ?_,
        ⟨⟨st.elems.length, 0⟩, ⟨st.elems.length, max m.toNat 1⟩, ⟨st.elems.length, m.toNat⟩⟩,
        ?_, ?_, ?_, ?_, ?_, ?_⟩
      · rw [hm]
        congr 1
        omega
      · cases src with
        | null => simp [Heap.derefVec] at hs0
        | obj c =>
          have hc : c ≠ self := fun e => hne (by rw [e])
          simp only [Heap.derefVec, Heap.log, Function.update_noteq hc]
          exact hs0
        | slot q => exact hs0
      · simp [Heap.derefVec, Heap.log]
      · simp only
        omega
      · simp
      · intro q hq
        simp only [Heap.log]
        exact loadCell_append_left _ _ (by omega)
      · intro i hi
        simp only [Heap.log, Nat.zero_add]
        unfold loadCell
        simp only
        rw [blockCells_append_new, hcells]
        simp only
        have h2 : (List.take m.toNat (List.drop hs.stor_begin.off cells)).length = m.toNat := by
          rw [List.length_take, List.length_drop]
          omega
        rw [List.getElem?_append_left (by omega), List.getElem?_take_of_lt hi,
          List.getElem?_drop]
      · refine ⟨_, blockCells_append_new _ _, ?_⟩
        simp only [List.length_append, List.length_take, List.length_drop,
          List.length_replicate]
        omega
    · simp at h
  · simp at h

/-- After a copy into another buffer the two wrappers read the same elements, and a write
through the first element of the copy does not reach the source. -/
theorem CopyPost.read_write {st st1 : Heap} {a b : igVec} {hs : igraph_vector_t} {n : Nat}
    (hpost : CopyPost st st1 a.ptr b.ptr hs n) (hsz : hs.size = some (n : Int)) (hn : 0 < n) :
    a.size st = some (n : Int) ∧ a.size st1 = some (n : Int) ∧ b.size st1 = some (n : Int) ∧
    (∀ i : Int, a.index st1 i = a.index st i) ∧
    (∀ i : Int, 0 ≤ i → i < n → b.index st1 i = a.index st i) ∧
    (∃ ha hb, st1.derefVec a.ptr = some ha ∧ st1.derefVec b.ptr = some hb ∧
      hb.stor_begin.blk ≠ ha.stor_begin.blk) ∧
    (∀ x : Int, ∃ st2, b.index_assign st1 0 x = some st2 ∧ b.index st2 0 = some x ∧
      a.size st2 = some (n : Int) ∧ ∀ i : Int, a.index st2 i = a.index st i) := by
  obtain ⟨hs0, hs1, hd1, hhd1, hdist, hend, hframe, hcopied, dc, hdc, hdn⟩ := hpost
  have hsz' : hs.end_.diff hs.stor_begin = some (n : Int) := hsz
  have hread : ∀ (s : Heap), (∀ q : EPtr, q.blk = hs.stor_begin.blk →
      loadCell s.elems q = loadCell st.elems q) → ∀ i : Int,
      (match hs.stor_begin.add i with
        | none => none
        | some p => loadCell s.elems p) =
      (match hs.stor_begin.add i with
        | none => none
        | some p => loadCell st.elems p) := by
    intro s hfr i
    unfold EPtr.add
    by_cases h0 : 0 ≤ (hs.stor_begin.off : Int) + i
    · simp only [h0, if_true]
      exact hfr _ rfl
    · simp only [h0, if_false]
  refine ⟨?_, ?_, ?_, ?_, ?_, ⟨hs, hd1, hs1, hhd1, hdist⟩, ?_⟩
  · simp only [igVec.size, hs0, hsz']
  · simp only [igVec.size, hs1, hsz']
  · simp only [igVec.size, hhd1, hend, EPtr.diff, if_true]
    congr 1
    push_cast
    omega
  · intro i
    simp only [igVec.index, igVec.begin_, hs0, hs1]
    exact hread st1 hframe i
  · intro i h0 hi
    obtain ⟨k, rfl⟩ := Int.eq_ofNat_of_zero_le h0
    have hk : k < n := by omega
    simp only [igVec.index, igVec.begin_, hs0, hhd1, EPtr.add_natCast]
    exact hcopied k hk
  · intro x
    have hlt : hd1.stor_begin.off < dc.length := by omega
    obtain ⟨el, hel⟩ := storeCell_isSome st1.elems hd1.stor_begin x hdc hlt
    refine ⟨{ st1 with elems := el }, ?_, ?_, ?_, ?_⟩
    · simp only [igVec.index_assign, igVec.begin_, hhd1, EPtr.add_zero, hel]
    · have hd2 : ({ st1 with elems := el } : Heap).derefVec b.ptr = some hd1 :=
        (Heap.derefVec_congr rfl rfl b.ptr).trans hhd1
      simp only [igVec.index, igVec.begin_, hd2, EPtr.add_zero]
      exact loadCell_storeCell_same hel
    · have ha2 : ({ st1 with elems := el } : Heap).derefVec a.ptr = some hs :=
        (Heap.derefVec_congr rfl rfl a.ptr).trans hs1
      simp only [igVec.size, ha2, hsz']
    · intro i
      have ha2 : ({ st1 with elems := el } : Heap).derefVec a.ptr = some hs :=
        (Heap.derefVec_congr rfl rfl a.ptr).trans hs1
      simp only [igVec.index, igVec.begin_, hs0, ha2]
      refine hread { st1 with elems := el } ?_ i
      intro q hq
      simp only
      rw [loadCell_storeCell_ne hel (by
        intro hc
        rw [hc] at hq
        exact hdist hq)]
      exact hframe q hq


/-- C7 as stated fails: copy assignment goes through the pointer of the destination and
leaves that pointer alone. With `b` an alias of the handle of `a`, `b = a; b[0] = 9;` leaves
`b` an alias and changes `a[0]` from 5 to 9; with `b` an alias of the handle of another
vector, `b = a` leaves `b` an alias of that handle, not an owner. -/
theorem C7_copy_assignment_through_alias :
    (∃ st1 b1 st2,
      igVec.assign_copy heapTwoVecs (igVec.igVec_alias 4 (HPtr.obj 1))
        { vec := 1, ptr := HPtr.obj 1 } = some (st1, b1) ∧
      b1.is_alias = true ∧
      b1.index_assign st1 0 9 = some st2 ∧
      igVec.index heapTwoVecs { vec := 1, ptr := HPtr.obj 1 } 0 = some 5 ∧
      igVec.index st2 { vec := 1, ptr := HPtr.obj 1 } 0 = some 9) ∧
    (∃ st1 b1,
      igVec.assign_copy heapTwoVecs (igVec.igVec_alias 4 (HPtr.obj 3))
        { vec := 1, ptr := HPtr.obj 1 } = some (st1, b1) ∧
      b1.is_alias = true ∧ b1.ptr = HPtr.obj 3) :=
  ⟨⟨_, _, _, rfl, rfl, rfl, rfl, rfl⟩, ⟨_, _, rfl, rfl, rfl⟩⟩

/-- C7, amended: for a non-empty source `a`, (1) a completed copy construction `igVec b(a)`
of a new object gives an owning `b`, and (2) a completed copy assignment `b = a` to an
existing `b` that views another buffer than `a` (with `a[0]` readable) leaves `b` the wrapper
it was, owning if it was owning and an alias of the same handle if it was an alias. In both
cases `b` then views a buffer distinct from `a`'s with the size of `a` and elementwise equal
contents, and a subsequent write `b[0] = x` completes and leaves the size and every element
of `a` unchanged. -/
theorem C7_copy_then_mutate :
    (∀ (st st1 : Heap) (self : Nat) (a b : igVec) (n : Int),
      a.ptr ≠ HPtr.obj self → a.size st = some n → 0 < n →
      igVec.igVec_copy st self a = some (st1, b) →
      b.is_alias = false ∧ DeepCopy st st1 a b n) ∧
    (∀ (st st1 : Heap) (a b b1 : igVec) (n : Int),
      a.ptr ≠ b.ptr → a.size st = some n → 0 < n → (a.index st 0).isSome →
      (∀ ha hb, st.derefVec a.ptr = some ha → st.derefVec b.ptr = some hb →
        ha.stor_begin.blk ≠ hb.stor_begin.blk) →
      igVec.assign_copy st b a = some (st1, b1) →
      b1 = b ∧ DeepCopy st st1 a b n) := by
  constructor
  · intro st st1 self a b n hne hsz hn h
    unfold igVec.igVec_copy igCheck at h
    simp only at h
    split at h
    · simp at h
    · next st0 hcopy =>
      simp only [Option.some.injEq, Prod.mk.injEq] at h
      obtain ⟨h1, h2⟩ := h
      subst h1 h2
      cases hd : st.derefVec a.ptr with
      | none => simp [igVec.size, hd] at hsz
      | some hs =>
        obtain ⟨k, hk, hpost⟩ := igraph_vector_init_copy_spec hcopy hne hd
        have hnk : n = (k : Int) := by
          simp only [igVec.size, hd] at hsz
          rw [show hs.end_.diff hs.stor_begin = hs.size from rfl, hk] at hsz
          exact (Option.some.inj hsz).symm
        subst hnk
        have hpost' : CopyPost st st0 a.ptr
            ({ vec := self, ptr := HPtr.obj self } : igVec).ptr hs k := hpost
        obtain ⟨-, -, hb, hfa, hfb, hdist, hw⟩ := CopyPost.read_write hpost' hk (by omega)
        exact ⟨by simp [igVec.is_alias], hb, hfb, hfa, hdist, hw⟩
  · intro st st1 a b b1 n hne hsz hn h0 hsep h
    unfold igVec.assign_copy igCheck at h
    split at h
    · simp at h
    · next st0 hupd =>
      simp only [Option.some.injEq, Prod.mk.injEq] at h
      obtain ⟨h1, h2⟩ := h
      subst h1 h2
      cases hd : st.derefVec a.ptr with
      | none => simp [igVec.size, hd] at hsz
      | some hs =>
        have hlive : hs.stor_begin.blk < st.elems.length := by
          obtain ⟨v, hv⟩ := Option.isSome_iff_exists.mp h0
          simp only [igVec.index, igVec.begin_, hd, EPtr.add_zero] at hv
          obtain ⟨cells, hc⟩ := loadCell_live hv
          exact blockCells_lt hc
        obtain ⟨k, hk, hpost⟩ := igraph_vector_update_spec hupd hne hd hlive
          (fun hb hhb => hsep hs hb hd hhb)
        have hnk : n = (k : Int) := by
          simp only [igVec.size, hd] at hsz
          rw [show hs.end_.diff hs.stor_begin = hs.size from rfl, hk] at hsz
          exact (Option.some.inj hsz).symm
        subst hnk
        obtain ⟨-, -, hb, hfa, hfb, hdist, hw⟩ := CopyPost.read_write hpost hk (by omega)
        exact ⟨rfl, hb, hfb, hfa, hdist, hw⟩

/-- Instance of C7 (amended): from `a` = 5, 0 at address 1, both `igVec b(a)` at the new
address 9 and `c = a` for the owning `c` = 0, 0, 0 at address 3 give a vector of size 2
reading 5 at index 0, and writing 9 to its first element leaves `a[0]` at 5. -/
theorem C7_copy_then_mutate_witness :
    (∃ st1 b st2, igVec.igVec_copy heapTwoVecs 9 { vec := 1, ptr := HPtr.obj 1 } = some (st1, b) ∧
      b.is_alias = false ∧ b.size st1 = some 2 ∧ b.index st1 0 = some 5 ∧
      b.index_assign st1 0 9 = some st2 ∧ b.index st2 0 = some 9 ∧
      igVec.index st2 { vec := 1, ptr := HPtr.obj 1 } 0 = some 5) ∧
    (∃ st1 c st2,
      igVec.assign_copy heapTwoVecs { vec := 3, ptr := HPtr.obj 3 }
        { vec := 1, ptr := HPtr.obj 1 } = some (st1, c) ∧
      c.is_alias = false ∧ c.size st1 = some 2 ∧ c.index st1 0 = some 5 ∧
      c.index_assign st1 0 9 = some st2 ∧ c.index st2 0 = some 9 ∧
      igVec.index st2 { vec := 1, ptr := HPtr.obj 1 } 0 = some 5) := by
  constructor
  · obtain ⟨⟨st1, b⟩, hr⟩ : ∃ r, igVec.igVec_copy heapTwoVecs 9
        { vec := 1, ptr := HPtr.obj 1 } = some r := ⟨_, rfl⟩
    obtain ⟨hown, hsz, hel, -, -, hw⟩ := C7_copy_then_mutate.1 heapTwoVecs st1 9
      { vec := 1, ptr := HPtr.obj 1 } b 2 (by decide) rfl (by decide) hr
    obtain ⟨st2, hw1, hw2, -, hw3⟩ := hw 9
    exact ⟨st1, b, st2, hr, hown, hsz, (hel 0 (by decide) (by decide)).trans rfl, hw1, hw2,
      (hw3 0).trans rfl⟩
  · obtain ⟨⟨st1, c⟩, hr⟩ : ∃ r, igVec.assign_copy heapTwoVecs { vec := 3, ptr := HPtr.obj 3 }
        { vec := 1, ptr := HPtr.obj 1 } = some r := ⟨_, rfl⟩
    obtain ⟨hc, hsz, hel, -, -, hw⟩ := C7_copy_then_mutate.2 heapTwoVecs st1
      { vec := 1, ptr := HPtr.obj 1 } { vec := 3, ptr := HPtr.obj 3 } c 2 (by decide) rfl
      (by decide) rfl
      (fun ha hb h1 h2 => by
        have e1 : ha = ⟨⟨0, 0⟩, ⟨0, 2⟩, ⟨0, 2⟩⟩ := (Option.some.inj h1).symm
        have e2 : hb = ⟨⟨2, 0⟩, ⟨2, 3⟩, ⟨2, 3⟩⟩ := (Option.some.inj h2).symm
        rw [e1, e2]
        decide) hr
    subst hc
    obtain ⟨st2, hw1, hw2, -, hw3⟩ := hw 9
    exact ⟨st1, _, st2, hr, rfl, hsz, (hel 0 (by decide) (by decide)).trans rfl, hw1, hw2,
      (hw3 0).trans rfl⟩

/-! ### Increment and decrement of the list iterator -/

/-- C11: for a list iterator `it` at position `k` (counted from any iterator `base` into the
same slots), the post-increment `it++` completes, leaves `it` at position `k + 1` and returns
an iterator at position `k + 1`: the returned value equals the advanced `it` and the value of
`++it`, it differs from the iterator before the call, and `*it++` is an alias of the slot
after the one `it` pointed to. Likewise `it--`, defined when `it` does not point to the
first cell of its block, leaves `it` at position `k - 1` and returns an iterator at position
`k - 1`, the value of `--it`. -/
theorem C11_post_increment_returns_advanced (it base : igVecList.iterator) (k : Int)
    (hpos : it.distance base = some k) :
    (∃ it1 r, it.post_inc = some (it1, r) ∧
      it1.distance base = some (k + 1) ∧ r.distance base = some (k + 1) ∧
      r = it1 ∧ it.pre_inc = some (it1, r) ∧
      r.op_eq it = false ∧ r.distance it = some 1 ∧
      ∀ self, r.deref self =
        { vec := self, ptr := HPtr.slot ⟨it.p.blk, it.p.off + 1⟩ }) ∧
    (0 < it.p.off →
      ∃ it1 r, it.post_dec = some (it1, r) ∧
        it1.distance base = some (k - 1) ∧ r.distance base = some (k - 1) ∧
        r = it1 ∧ it.pre_dec = some (it1, r) ∧
        r.op_eq it = false ∧ r.distance it = some (-1) ∧
        ∀ self, r.deref self =
          { vec := self, ptr := HPtr.slot ⟨it.p.blk, it.p.off - 1⟩ }) := by
  have hblk : it.p.blk = base.p.blk ∧ k = (it.p.off : Int) - (base.p.off : Int) := by
    unfold igVecList.iterator.distance EPtr.diff at hpos
    split at hpos
    · next hb => exact ⟨hb, (Option.some.inj hpos).symm⟩
    · simp at hpos
  obtain ⟨hb, hk⟩ := hblk
  constructor
  · have hadd : it.p.add 1 = some ⟨it.p.blk, it.p.off + 1⟩ := EPtr.add_natCast it.p 1
    refine ⟨{ p := ⟨it.p.blk, it.p.off + 1⟩ }, { p := ⟨it.p.blk, it.p.off + 1⟩ }, ?_, ?_, ?_,
      rfl, ?_, ?_, ?_, ?_⟩
    · simp only [igVecList.iterator.post_inc, hadd]
    · simp only [igVecList.iterator.distance, EPtr.diff, hb, if_true]
      congr 1
      push_cast
      omega
    · simp only [igVecList.iterator.distance, EPtr.diff, hb, if_true]
      congr 1
      push_cast
      omega
    · simp only [igVecList.iterator.pre_inc, hadd]
    · simp only [igVecList.iterator.op_eq, beq_eq_false_iff_ne, ne_eq]
      intro h
      have ho := congrArg EPtr.off h
      simp only at ho
      omega
    · simp only [igVecList.iterator.distance, EPtr.diff, if_true]
      congr 1
      push_cast
      omega
    · intro self
      rfl
  · intro hoff
    have hadd : it.p.add (-1) = some ⟨it.p.blk, it.p.off - 1⟩ := by
      unfold EPtr.add
      have h0 : 0 ≤ (it.p.off : Int) + -1 := by omega
      simp only [h0, if_true, Option.some.injEq, EPtr.mk.injEq, true_and]
      omega
    refine ⟨{ p := ⟨it.p.blk, it.p.off - 1⟩ }, { p := ⟨it.p.blk, it.p.off - 1⟩ }, ?_, ?_, ?_,
      rfl, ?_, ?_, ?_, ?_⟩
    · simp only [igVecList.iterator.post_dec, hadd]
    · simp only [igVecList.iterator.distance, EPtr.diff, hb, if_true]
      congr 1
      omega
    · simp only [igVecList.iterator.distance, EPtr.diff, hb, if_true]
      congr 1
      omega
    · simp only [igVecList.iterator.pre_dec, hadd]
    · simp only [igVecList.iterator.op_eq, beq_eq_false_iff_ne, ne_eq]
      intro h
      have ho := congrArg EPtr.off h
      simp only at ho
      omega
    · simp only [igVecList.iterator.distance, EPtr.diff, if_true]
      congr 1
      omega
    · intro self
      rfl

/-- Instance of C11: on the list holding a vector of size 3 and then a vector of size 1,
`it = L.begin()` dereferences to the vector of size 3, `*it++` to the vector of size 1, and
`it--` on the iterator at position 1 returns the iterator at position 0. -/
theorem C11_post_increment_returns_advanced_witness :
    igVecList.begin_ heapListTwoItems { list := 100, ptr := HPtr.obj 100 } =
      some { p := ⟨1, 0⟩ } ∧
    igVec.size heapListTwoItems (igVecList.iterator.deref 300 { p := ⟨1, 0⟩ }) = some 3 ∧
    (∃ it1 r, igVecList.iterator.post_inc { p := ⟨1, 0⟩ } = some (it1, r) ∧
      it1.distance { p := ⟨1, 0⟩ } = some 1 ∧ r.distance { p := ⟨1, 0⟩ } = some 1 ∧
      igVec.size heapListTwoItems (r.deref 300) = some 1) ∧
    (∃ it1 r, igVecList.iterator.post_dec { p := ⟨1, 1⟩ } = some (it1, r) ∧
      it1.distance { p := ⟨1, 0⟩ } = some 0 ∧ r.distance { p := ⟨1, 0⟩ } = some 0) := by
  refine ⟨rfl, rfl, ?_, ?_⟩
  · obtain ⟨it1, r, h1, h2, h3, -, -, -, -, h4⟩ :=
      (C11_post_increment_returns_advanced { p := ⟨1, 0⟩ } { p := ⟨1, 0⟩ } 0 rfl).1
    refine ⟨it1, r, h1, h2, h3, ?_⟩
    rw [h4 300]
    rfl
  · obtain ⟨it1, r, h1, h2, h3, -⟩ :=
      (C11_post_increment_returns_advanced { p := ⟨1, 1⟩ } { p := ⟨1, 0⟩ } 1 rfl).2 (by decide)
    exact ⟨it1, r, h1, h2, h3⟩

end IgraphCpp
